import Mathlib

/-!
Verification development for the `luraph-unscrambler` repository.

The TypeScript sources are shallowly embedded into Lean:

* JavaScript strings are lists of UTF-16 code units (`JSStr := List Nat`);
  `charCodeAt` is list indexing, `String.fromCharCode` is `List.cons`.
* `Uint8Array` writes truncate modulo 256, mirrored by `% 256`.
* JavaScript bitwise operators on the byte-sized values used by the code
  are `Nat.xor`, `<<<`, `>>>` and `% 256` / `% 2 ^ 32` masks.
* Fallible code returns `Option` / `Except`; mutable per-call state is
  threaded explicitly.
-/

/-- A JavaScript string, as a list of UTF-16 code units. -/
abbrev JSStr := List Nat

/-- Embed a Lean string literal as a JavaScript string (all literals in the
sources are ASCII / BMP, where code units coincide with code points). -/
def js (s : String) : JSStr := s.toList.map Char.toNat

namespace LuraphDecryptor

/-- Result record of `LuraphDecryptor.decryptString` and friends
(`DecryptionResult` in `LuraphDecryptor.ts`). -/
structure DecryptionResult where
  success : Bool
  decrypted : JSStr
  method : String
  error : Option String
deriving Repr, DecidableEq

/-- `EncryptionInfo` from `LuraphDecryptor.ts` (the `algorithm`/`version`
fields are never read by the decryption routines and are omitted). -/
structure EncryptionInfo where
  method : String
  key : JSStr
  iv : Option JSStr
deriving Repr, DecidableEq

/-- `stringToBytes`: `bytes[i] = str.charCodeAt(i)` stored into a
`Uint8Array`, which truncates each code unit modulo 256. -/
def stringToBytes (s : JSStr) : List Nat := s.map (· % 256)

/-- `bytesToString`: `String.fromCharCode` applied byte by byte. -/
def bytesToString (b : List Nat) : JSStr := b

/-- Value of `parseInt(hex.substr(i, 2), 16)` as stored into a `Uint8Array`:
if the first character is not a hex digit the result is `NaN`, stored as 0;
if only the first is a digit, `parseInt` parses that single digit. -/
def hexDigit (c : Nat) : Option Nat :=
  if 48 ≤ c ∧ c ≤ 57 then some (c - 48)
  else if 97 ≤ c ∧ c ≤ 102 then some (c - 87)
  else if 65 ≤ c ∧ c ≤ 70 then some (c - 55)
  else none

/-- `parseInt` on a ≤2-character hex chunk, with the `NaN ↦ 0` store. -/
def hexPairVal (chunk : List Nat) : Nat :=
  match chunk with
  | [] => 0
  | [c] => (hexDigit c).getD 0
  | c1 :: c2 :: _ =>
      match hexDigit c1 with
      | none => 0
      | some v1 =>
          match hexDigit c2 with
          | none => v1
          | some v2 => 16 * v1 + v2

/-- `hexToBytes`: walks the string two characters at a time
(`new Uint8Array(hex.length / 2)`, so a trailing odd character is dropped). -/
def hexToBytes : JSStr → List Nat
  | [] => []
  | [_] => []
  | c1 :: c2 :: rest => hexPairVal [c1, c2] :: hexToBytes rest

/-- `xorBytes(a, b)`: `result[i] = a[i] ^ b[i % b.length]`.  The recursion
carries the running index `i`. -/
def xorBytesGo (b : List Nat) : List Nat → Nat → List Nat
  | [], _ => []
  | x :: rest, i => Nat.xor x (b.getD (i % b.length) 0) :: xorBytesGo b rest (i + 1)

/-- `xorBytes` as called by the source (index starting at 0). -/
def xorBytes (a b : List Nat) : List Nat := xorBytesGo b a 0

/-- `xorDecryptV1`: `out[i] = cipher.charCodeAt(i) XOR keyBytes[i % |key|]`. -/
def xorV1Go (keyBytes : List Nat) : JSStr → Nat → JSStr
  | [], _ => []
  | c :: rest, i =>
      Nat.xor c (keyBytes.getD (i % keyBytes.length) 0) :: xorV1Go keyBytes rest (i + 1)

/-- `LuraphDecryptor.xorDecryptV1`. -/
def xorDecryptV1 (encrypted key : JSStr) : DecryptionResult :=
  { success := true
    decrypted := xorV1Go (stringToBytes key) encrypted 0
    method := "xor_v1"
    error := none }

/-- `xorDecryptV2` loop: a separate `keyIndex` cycles through the key while
`i` is the character position; `rotatedKey = (keyByte + i) & 0xFF`. -/
def xorV2Go (keyBytes : List Nat) : JSStr → Nat → Nat → JSStr
  | [], _, _ => []
  | c :: rest, i, keyIndex =>
      let keyByte := keyBytes.getD keyIndex 0
      let rotatedKey := (keyByte + i) % 256
      Nat.xor c rotatedKey ::
        xorV2Go keyBytes rest (i + 1) ((keyIndex + 1) % keyBytes.length)

/-- `LuraphDecryptor.xorDecryptV2`. -/
def xorDecryptV2 (encrypted key : JSStr) : DecryptionResult :=
  { success := true
    decrypted := xorV2Go (stringToBytes key) encrypted 0 0
    method := "xor_v2"
    error := none }

/-- `reverseBitManipulation`: `((b << 3) | (b >> 5)) & 0xFF`, i.e. a left
rotation by 3 on the byte values the source feeds it. -/
def reverseBitManipulation (bytes : List Nat) : List Nat :=
  bytes.map (fun b => ((b <<< 3).lor (b >>> 5)) % 256)

/-- `customSubstitution`: `(bytes[i] - key[i % |key|]) & 0xFF`
(two's-complement wrap of the possibly negative difference). -/
def customSubstitutionGo (key : List Nat) : List Nat → Nat → List Nat
  | [], _ => []
  | b :: rest, i =>
      (((b : Int) - (key.getD (i % key.length) 0 : Int)) % 256).toNat ::
        customSubstitutionGo key rest (i + 1)

/-- `customSubstitution` as called by the source. -/
def customSubstitution (bytes key : List Nat) : List Nat :=
  customSubstitutionGo key bytes 0

/-- `LuraphDecryptor.luraphCustomDecrypt`: XOR with the key, then the
bit rotation, then the keyed subtraction; never throws, so `success = true`. -/
def luraphCustomDecrypt (encrypted key : JSStr) : DecryptionResult :=
  let encryptedBytes := stringToBytes encrypted
  let keyBytes := stringToBytes key
  let r1 := xorBytes encryptedBytes keyBytes
  let r2 := reverseBitManipulation r1
  let r3 := customSubstitution r2 keyBytes
  { success := true
    decrypted := bytesToString r3
    method := "luraph_custom"
    error := none }

/-- The spec's reference encryption inverting `xorDecryptV1`
(XOR is an involution, so it is the same keyed XOR). -/
def xorEncryptV1 (plain key : JSStr) : JSStr :=
  xorV1Go (stringToBytes key) plain 0

/-- The spec's reference encryption inverting `xorDecryptV2`. -/
def xorEncryptV2 (plain key : JSStr) : JSStr :=
  xorV2Go (stringToBytes key) plain 0 0

/-- Right rotation by 3 on a byte, inverse of `reverseBitManipulation`. -/
def rotr3 (b : Nat) : Nat := ((b >>> 3).lor (b <<< 5)) % 256

/-- Keyed byte-wise addition modulo 256, inverse of `customSubstitution`. -/
def keyedAddGo (key : List Nat) : List Nat → Nat → List Nat
  | [], _ => []
  | b :: rest, i =>
      (b + key.getD (i % key.length) 0) % 256 :: keyedAddGo key rest (i + 1)

/-- The spec's reference encryption inverting `luraphCustomDecrypt`:
keyed addition, then right rotation by 3, then keyed XOR. -/
def luraphCustomEncrypt (plain key : JSStr) : JSStr :=
  let keyBytes := stringToBytes key
  let e1 := keyedAddGo keyBytes plain 0
  let e2 := e1.map rotr3
  xorBytes e2 keyBytes

/-- One pass of `simpleAESDecrypt`'s block loop: each 16-byte slice is
XORed with the first 16 key bytes and with the previous cipher block
(initially the IV); the cipher block becomes the new `previousBlock`. -/
def simpleAESDecryptGo (key16 : List Nat) (enc prev : List Nat) : List Nat :=
  match enc with
  | [] => []
  | c :: rest =>
      let block := (c :: rest).take 16
      let finalBlock := xorBytes (xorBytes block key16) prev
      finalBlock ++ simpleAESDecryptGo key16 ((c :: rest).drop 16) block
termination_by enc.length
decreasing_by simp only [List.length_drop, List.length_cons]; omega

/-- `LuraphDecryptor.simpleAESDecrypt` (placeholder XOR chain, not AES). -/
def simpleAESDecrypt (encrypted key iv : List Nat) : List Nat :=
  simpleAESDecryptGo (key.take 16) encrypted iv

/-- `LuraphDecryptor.aesDecrypt`: hex-decodes the ciphertext, IV defaults to
16 zero bytes.  None of the steps can throw, so the catch branch is dead and
`success` is always `true`. -/
def aesDecrypt (encrypted key : JSStr) (iv : Option JSStr) : DecryptionResult :=
  let encryptedBytes := hexToBytes encrypted
  let keyBytes := stringToBytes key
  let ivBytes := match iv with
    | some s => hexToBytes s
    | none => List.replicate 16 0
  { success := true
    decrypted := bytesToString (simpleAESDecrypt encryptedBytes keyBytes ivBytes)
    method := "aes_cbc"
    error := none }

/-- `generateIV`: `iv[i] = key.charCodeAt(i % key.length) ^ i` for `i < 16`.
On an empty key `charCodeAt` yields `NaN`, which the `Uint8Array` stores as 0
after the XOR collapses to `ToInt32(NaN) ^ i = i`. -/
def generateIV (key : JSStr) : List Nat :=
  (List.range 16).map fun i =>
    if key.isEmpty then i % 256
    else Nat.xor (key.getD (i % key.length) 0) i % 256

/-- `modifyKeyForLuraph`: `modified[i] = (key[i] + i * 7) & 0xFF`. -/
def modifyKeyForLuraphGo : List Nat → Nat → List Nat
  | [], _ => []
  | k :: rest, i => (k + i * 7) % 256 :: modifyKeyForLuraphGo rest (i + 1)

/-- `modifyKeyForLuraph` as called by the source. -/
def modifyKeyForLuraph (key : List Nat) : List Nat := modifyKeyForLuraphGo key 0

/-- `removeLuraphPadding`: drop `p` trailing bytes when the last byte `p`
is in `[1, 16]`; on an empty array `bytes[-1]` is `undefined` and the
comparison fails, so the input is returned unchanged. -/
def removeLuraphPadding (bytes : List Nat) : List Nat :=
  match bytes.getLast? with
  | none => bytes
  | some p => if 0 < p ∧ p ≤ 16 then bytes.take (bytes.length - p) else bytes

/-- `luraphAESDecrypt`: `simpleAESDecrypt` under the Luraph-modified key,
then custom unpadding. -/
def luraphAESDecrypt (encrypted key iv : List Nat) : List Nat :=
  removeLuraphPadding (simpleAESDecrypt encrypted (modifyKeyForLuraph key) iv)

/-- `LuraphDecryptor.aesDecryptV2`: like `aesDecrypt` but with the
key-derived IV and the Luraph key schedule; again the catch branch is dead. -/
def aesDecryptV2 (encrypted key : JSStr) (iv : Option JSStr) : DecryptionResult :=
  let encryptedBytes := hexToBytes encrypted
  let keyBytes := stringToBytes key
  let ivBytes := match iv with
    | some s => hexToBytes s
    | none => generateIV key
  { success := true
    decrypted := bytesToString (luraphAESDecrypt encryptedBytes keyBytes ivBytes)
    method := "aes_cbc_v2"
    error := none }

/-- Number of non-overlapping occurrences of the literal character
sequence `pat` in `s`, scanning left to right — the match count of a
`g`-flagged literal regular expression. -/
def countLit (pat : JSStr) : JSStr → Nat
  | [] => 0
  | c :: rest =>
      if pat ≠ [] ∧ pat.isPrefixOf (c :: rest) then
        1 + countLit pat ((c :: rest).drop pat.length)
      else countLit pat rest
termination_by s => s.length
decreasing_by
  · rename_i h
    have hp : 0 < pat.length := List.length_pos.mpr h.1
    simp only [List.length_drop, List.length_cons]
    omega
  · simp

/-- JavaScript regex word characters `[A-Za-z0-9_]` (the `\b` boundary). -/
def isWordChar (c : Nat) : Bool :=
  (48 ≤ c && c ≤ 57) || (65 ≤ c && c ≤ 90) || (97 ≤ c && c ≤ 122) || c == 95

/-- Match count of `new RegExp(`\b${kw}\b`, 'g')`: occurrences of `kw`
delimited by non-word characters (or the string ends), scanning left to
right.  `prevIsWord` records whether the previous character was a word
character. -/
def countWordGo (kw : JSStr) : JSStr → Bool → Nat
  | [], _ => 0
  | c :: rest, prevIsWord =>
      let after := (c :: rest).drop kw.length
      if kw ≠ [] ∧ kw.isPrefixOf (c :: rest) ∧ prevIsWord = false ∧
          (match after.head? with
           | none => true
           | some d => !isWordChar d) = true then
        1 + countWordGo kw after (isWordChar (kw.getLastD 0))
      else countWordGo kw rest (isWordChar c)
termination_by s => s.length
decreasing_by
  · rename_i h
    have hp : 0 < kw.length := List.length_pos.mpr h.1
    simp only [List.length_drop, List.length_cons]
    omega
  · simp

/-- Whole-word match count starting at the beginning of the string. -/
def countWord (kw s : JSStr) : Nat := countWordGo kw s false

/-- JavaScript line terminators, which `.` does not match. -/
def isLineTerm (c : Nat) : Bool := c == 10 || c == 13 || c == 8232 || c == 8233

/-- Match count of the compiled pattern for the `'..'` operator entry:
`new RegExp('\\..', 'g')` is `\.` (a literal dot) followed by `.`
(any non-line-terminator). -/
def countDotAny : JSStr → Nat
  | [] => 0
  | [_] => 0
  | c :: d :: rest =>
      if c = 46 ∧ ¬ isLineTerm d then 1 + countDotAny rest
      else countDotAny (d :: rest)

/-- Substring test (`String.prototype.includes`). -/
def hasSub (pat : JSStr) : JSStr → Bool
  | [] => pat.isEmpty
  | c :: rest => pat.isPrefixOf (c :: rest) || hasSub pat rest

/-- Non-printable characters penalised by `scoreLuaCode`:
`[\x00-\x08\x0B\x0C\x0E-\x1F\x7F]`. -/
def isNonPrintable (c : Nat) : Bool :=
  c ≤ 8 || c == 11 || c == 12 || (14 ≤ c && c ≤ 31) || c == 127

/-- The `luaKeywords` array of `scoreLuaCode`, in source order. -/
def luaKeywords : List JSStr :=
  [js "local", js "function", js "end", js "if", js "then",
   js "else", js "for", js "while", js "do", js "return"]

/-- Match counts of the compiled `luaOperators` patterns, in source order.
Each entry is built as `new RegExp('\\' + op, 'g')`, so only the first
character is escaped: for the one- and two-character symbols this yields the
literal symbol (`\=`, `\~`, `\<`, … are identity escapes); `'\\..'` is a
literal dot followed by any non-line-terminator; `'\\and'` and `'\\or'` are
the literals `and` / `or` (`\a`, `\o` are identity escapes); but `'\\not'`
compiles `\n` to a NEWLINE, so the `'not'` entry counts occurrences of
`"\not"` (LF, `o`, `t`). -/
def luaOperatorCounts (code : JSStr) : List Nat :=
  [countLit (js "=") code, countLit (js "==") code, countLit (js "~=") code,
   countLit (js "<=") code, countLit (js ">=") code, countLit (js "<") code,
   countLit (js ">") code, countLit (js "+") code, countLit (js "-") code,
   countLit (js "*") code, countLit (js "/") code, countLit (js "%") code,
   countLit (js "^") code, countDotAny code, countLit (js "and") code,
   countLit (js "or") code, countLit (js "\not") code]

/-- `LuraphDecryptor.scoreLuaCode`: accumulate 10 per whole-word keyword
match, 2 per operator-pattern match, the three bonus checks, minus 5 per
non-printable character. -/
def scoreLuaCode (code : JSStr) : Int :=
  let s1 : Int := luaKeywords.foldl (fun acc kw => acc + (countWord kw code : Int) * 10) 0
  let s2 : Int := (luaOperatorCounts code).foldl (fun acc (n : Nat) => acc + (n : Int) * 2) s1
  let s3 : Int := if hasSub (js "function") code && hasSub (js "end") code then s2 + 20 else s2
  let s4 : Int := if hasSub (js "local") code then s3 + 15 else s3
  let s5 : Int := if hasSub (js "print") code then s4 + 10 else s4
  s5 - 5 * ((code.filter isNonPrintable).length : Int)

/-- `LuraphDecryptor.selectBestResult`: fold keeping the first result whose
score is strictly greater than the best so far. -/
def selectBestResult (results : List DecryptionResult) : Option DecryptionResult :=
  match results with
  | [] => none
  | r0 :: rest =>
      some ((rest.foldl
        (fun acc r =>
          let sc := scoreLuaCode r.decrypted
          if sc > acc.2 then (r, sc) else acc)
        (r0, scoreLuaCode r0.decrypted)).1)

/-- `LuraphDecryptor.autoDetectAndDecrypt`: the `methods` array is
`['xor_v1', 'xor_v2', 'aes_cbc', 'luraph_custom']`; each is dispatched
through `decryptString`, which routes straight to the four decryptors, and
only `success` results are kept. -/
def autoDetectAndDecrypt (encrypted key : JSStr) : DecryptionResult :=
  let results :=
    [xorDecryptV1 encrypted key, xorDecryptV2 encrypted key,
     aesDecrypt encrypted key none, luraphCustomDecrypt encrypted key
    ].filter (·.success)
  match selectBestResult results with
  | some r => r
  | none =>
      { success := false
        decrypted := encrypted
        method := "auto"
        error := some "No valid decryption method found" }

/-- `LuraphDecryptor.decryptString`: dispatch on the method string, with
`autoDetectAndDecrypt` as the default branch.  None of the branches can
throw, so the surrounding catch is dead. -/
def decryptString (encrypted : JSStr) (info : EncryptionInfo) : DecryptionResult :=
  if info.method = "xor_v1" then xorDecryptV1 encrypted info.key
  else if info.method = "xor_v2" then xorDecryptV2 encrypted info.key
  else if info.method = "aes_cbc" then aesDecrypt encrypted info.key info.iv
  else if info.method = "aes_cbc_v2" then aesDecryptV2 encrypted info.key info.iv
  else if info.method = "luraph_custom" then luraphCustomDecrypt encrypted info.key
  else autoDetectAndDecrypt encrypted info.key

/-- First candidate whose score is maximal — the selection rule the claim
describes ("highest score, ties broken in candidate order"). -/
def firstMaxByScore (l : List DecryptionResult) : Option DecryptionResult :=
  l.find? fun c => l.all fun d => scoreLuaCode d.decrypted ≤ scoreLuaCode c.decrypted

/-- The claim's described `auto` behaviour: attempt all five supported
algorithms (`xor_v1`, `xor_v2`, `aes_cbc`, `aes_cbc_v2`, `luraph_custom`),
return the candidate with the highest score, ties broken in that order. -/
def claimedAutoDecrypt (encrypted key : JSStr) : DecryptionResult :=
  let cands :=
    [xorDecryptV1 encrypted key, xorDecryptV2 encrypted key,
     aesDecrypt encrypted key none, aesDecryptV2 encrypted key none,
     luraphCustomDecrypt encrypted key]
  (firstMaxByScore cands).getD (xorDecryptV1 encrypted key)

/-- The three invertible methods quantified over by the round-trip claim. -/
inductive InvMethod
  | xorV1
  | xorV2
  | luraphCustom
deriving Repr, DecidableEq

/-- Method string of an invertible method. -/
def InvMethod.name : InvMethod → String
  | .xorV1 => "xor_v1"
  | .xorV2 => "xor_v2"
  | .luraphCustom => "luraph_custom"

/-- The spec's reference encryption for an invertible method. -/
def refEncrypt (plain key : JSStr) : InvMethod → JSStr
  | .xorV1 => xorEncryptV1 plain key
  | .xorV2 => xorEncryptV2 plain key
  | .luraphCustom => luraphCustomEncrypt plain key

end LuraphDecryptor

/-! ### `types/VMInstructions.ts` -/

/- The numeric values of the `LuaOpcode` enum used by the sources. -/
namespace LuaOpcode

def MOVE : Nat := 0
def LOADK : Nat := 1
def LOADBOOL : Nat := 3
def LOADNIL : Nat := 4
def NEWTABLE : Nat := 11
def ADD : Nat := 13
def SUB : Nat := 14
def MUL : Nat := 15
def MOD : Nat := 16
def POW : Nat := 17
def DIV : Nat := 18
def JMP : Nat := 30
def CALL : Nat := 36
def RETURN : Nat := 38

end LuaOpcode

/-- `VMInstruction`: required `a`/`b`/`c` plus the optional extended
operands; `line` is optional.  Operands are `Int` (the reconstructor can
produce negative values such as a `-1` handler index in `line`). -/
structure VMInstruction where
  opcode : Nat
  a : Int
  b : Int
  c : Int
  bx : Option Int := none
  sbx : Option Int := none
  ax : Option Int := none
  line : Option Int := none
deriving Repr, DecidableEq

/-- The dynamic `value` of a `VMConstant`.  Everywhere in the sources the
`type` string and the runtime value are created together and agree, so the
embedding keeps them in one tagged value; `numInt` covers JS numbers with
`Number.isInteger(x) = true` and `numFlt` the remaining numbers, identified
by their IEEE-754 binary64 bit pattern. -/
inductive VMConstVal where
  | nil
  | boolean (b : Bool)
  | numInt (n : Int)
  | numFlt (bits : Nat)
  | str (s : JSStr)
deriving Repr, DecidableEq

/-- The `type` string stored next to the value in `VMConstant`. -/
def VMConstVal.typeName : VMConstVal → String
  | .nil => "nil"
  | .boolean _ => "boolean"
  | .numInt _ => "number"
  | .numFlt _ => "number"
  | .str _ => "string"

/-- `VMConstant` (type string and value fused, see `VMConstVal`). -/
structure VMConstant where
  value : VMConstVal
  index : Int
deriving Repr, DecidableEq

/-- `VMUpvalue`. -/
structure VMUpvalue where
  name : JSStr
  index : Int
  isLocal : Bool
  register : Nat
deriving Repr, DecidableEq

/-- `VMProto`; an inductive because protos nest. -/
inductive VMProto where
  | mk (instructions : List VMInstruction) (constants : List VMConstant)
       (upvalues : List VMUpvalue) (protos : List VMProto) (source : JSStr)
       (lineDefined lastLineDefined numParams : Nat) (isVararg : Bool)
       (maxStackSize : Int)
deriving Repr

def VMProto.instructions : VMProto → List VMInstruction
  | .mk is _ _ _ _ _ _ _ _ _ => is

def VMProto.constants : VMProto → List VMConstant
  | .mk _ cs _ _ _ _ _ _ _ _ => cs

def VMProto.upvalues : VMProto → List VMUpvalue
  | .mk _ _ us _ _ _ _ _ _ _ => us

def VMProto.protos : VMProto → List VMProto
  | .mk _ _ _ ps _ _ _ _ _ _ => ps

def VMProto.source : VMProto → JSStr
  | .mk _ _ _ _ s _ _ _ _ _ => s

def VMProto.lineDefined : VMProto → Nat
  | .mk _ _ _ _ _ ld _ _ _ _ => ld

def VMProto.lastLineDefined : VMProto → Nat
  | .mk _ _ _ _ _ _ lld _ _ _ => lld

def VMProto.numParams : VMProto → Nat
  | .mk _ _ _ _ _ _ _ np _ _ => np

def VMProto.isVararg : VMProto → Bool
  | .mk _ _ _ _ _ _ _ _ v _ => v

def VMProto.maxStackSize : VMProto → Int
  | .mk _ _ _ _ _ _ _ _ _ m => m

/-! ### `LuacGenerator.ts`

The generator writes sequentially into a `DataView`; the embedding produces
the written byte list directly.  (The source allocates a fixed 64 KiB
buffer; the embedding, like the spec's growable buffer, does not model the
allocation size.) -/

namespace LuacGenerator

/-- `k` little-endian bytes of `v`. -/
def leBytes (k v : Nat) : List Nat := (List.range k).map fun i => v / 256 ^ i % 256

/-- `setUint32 _ v true`. -/
def le32 (v : Nat) : List Nat := leBytes 4 v

/-- `setUint32` of a possibly negative JS number (`ToUint32` wrap). -/
def le32i (v : Int) : List Nat := leBytes 4 (v % (2 ^ 32 : Int)).toNat

/-- JS `x & mask` then use as an unsigned field: Euclidean remainder. -/
def imask (v : Int) (m : Nat) : Nat := (v % (m : Int)).toNat

/-- `setBigInt64 _ (BigInt v) true`: 8 little-endian bytes of the
two's-complement representation. -/
def le64i (v : Int) : List Nat := leBytes 8 (v % (2 ^ 64 : Int)).toNat

/-- 8 little-endian bytes of an IEEE-754 binary64 bit pattern. -/
def le64 (bits : Nat) : List Nat := leBytes 8 bits

/-- IEEE-754 binary64 bit pattern written by `setFloat64(offset, 370.5)`:
sign 0, biased exponent 1031, fraction `229 * 2 ^ 43`
(`370.5 = (1 + 229 * 2 ^ 43 / 2 ^ 52) * 2 ^ (1031 - 1023)`, proved in
`numCheckBits_meaning`). -/
def numCheckBits : Nat := 1031 * 2 ^ 52 + 229 * 2 ^ 43

/-- `LUAC_DATA = "\x19\x93\r\n\x1a\n"`. -/
def LUAC_DATA : List Nat := [0x19, 0x93, 0x0D, 0x0A, 0x1A, 0x0A]

/-- `writeHeader`: signature, version, format, data, the five size bytes,
and the integer/float check values. -/
def writeHeader : List Nat :=
  le32 0x1B4C7561 ++ [0x53, 0] ++ LUAC_DATA ++ [4, 8, 4, 8, 8] ++
    le64i 0x5678 ++ le64 numCheckBits

/-- UTF-8 bytes of one code point (`TextEncoder`; the sources only emit
ASCII here). -/
def utf8Char (c : Nat) : List Nat :=
  if c < 0x80 then [c]
  else if c < 0x800 then [0xC0 + c / 64, 0x80 + c % 64]
  else if c < 0x10000 then [0xE0 + c / 4096, 0x80 + c / 64 % 64, 0x80 + c % 64]
  else [0xF0 + c / 262144, 0x80 + c / 4096 % 64, 0x80 + c / 64 % 64, 0x80 + c % 64]

/-- `new TextEncoder().encode(str)`. -/
def utf8Encode (s : JSStr) : List Nat := s.flatMap utf8Char

/-- `writeString`: a falsy (empty) string is a single 0 byte; otherwise the
length byte (`bytes + 1`, truncated by `setUint8`), the bytes, and a null
terminator. -/
def writeString (s : JSStr) : List Nat :=
  if s.isEmpty then [0]
  else
    let strBytes := utf8Encode s
    (strBytes.length + 1) % 256 :: (strBytes ++ [0])

/-- `writeConstant`: tag byte then payload. -/
def writeConstant (c : VMConstant) : List Nat :=
  match c.value with
  | .nil => [0]
  | .boolean b => [1, if b then 1 else 0]
  | .numInt n => 3 :: le64i n
  | .numFlt bits => 19 :: le64 bits
  | .str s => 4 :: writeString s

/-- `encodeInstruction`: 6-bit opcode, 8-bit A, and the operand layout
chosen from which extended field is set (`bx`, then `sbx`, then `ax`,
otherwise B/C); `sbx` is biased by 131071 and masked to 18 bits
(two's-complement wrap for negative values). -/
def encodeInstruction (i : VMInstruction) : Nat :=
  let base := (i.opcode % 64).lor (imask i.a 256 <<< 6)
  match i.bx with
  | some bx => base.lor (imask bx (2 ^ 18) <<< 14)
  | none =>
    match i.sbx with
    | some sbx => base.lor (imask (sbx + 131071) (2 ^ 18) <<< 14)
    | none =>
      match i.ax with
      | some ax => base.lor (imask ax (2 ^ 26) <<< 6)
      | none => (base.lor (imask i.b 512 <<< 23)).lor (imask i.c 512 <<< 14)

/-- `writeDebugInfo`: per-instruction line numbers (`instruction.line || 0`),
an empty locals list, and the upvalue names. -/
def writeDebugInfo (p : VMProto) : List Nat :=
  le32 p.instructions.length ++
    (p.instructions.flatMap fun i => le32i (i.line.getD 0)) ++
    le32 0 ++
    le32 p.upvalues.length ++
    (p.upvalues.flatMap fun u => writeString u.name)

/-- `writeFunction`: source name (falsy source falls back to
`"@deobfuscated.lua"`), line range, parameter/vararg/stack bytes
(`Math.max(maxStackSize, 2)`), then the counted instruction, constant,
upvalue and nested-proto sections and the debug info. -/
def writeFunction (p : VMProto) : List Nat :=
  (if p.source.isEmpty then writeString (js "@deobfuscated.lua")
   else writeString p.source) ++
  le32 p.lineDefined ++
  le32 p.lastLineDefined ++
  [p.numParams % 256, if p.isVararg then 1 else 0, imask (max p.maxStackSize 2) 256] ++
  le32 p.instructions.length ++
  (p.instructions.flatMap fun i => le32 (encodeInstruction i)) ++
  le32 p.constants.length ++
  p.constants.flatMap writeConstant ++
  le32 p.upvalues.length ++
  (p.upvalues.flatMap fun u => [if u.isLocal then 1 else 0, u.register % 256]) ++
  le32 p.protos.length ++
  (p.protos.attach.flatMap fun q => writeFunction q.1) ++
  writeDebugInfo p
termination_by p
decreasing_by
  have := List.sizeOf_lt_of_mem q.2
  cases p
  simp only [VMProto.protos] at this
  simp only [VMProto.mk.sizeOf_spec]
  omega

/-- `LuacGenerator.generateLuac`: header then the main function body. -/
def generateLuac (p : VMProto) : List Nat := writeHeader ++ writeFunction p

/-- `validateLuac`: read back the little-endian signature and version byte;
an out-of-bounds `DataView` read throws and is caught as `false`. -/
def validateLuac (bytecode : List Nat) : Bool :=
  if bytecode.length < 5 then false
  else
    let signature :=
      bytecode.getD 0 0 + 256 * bytecode.getD 1 0 +
        65536 * bytecode.getD 2 0 + 16777216 * bytecode.getD 3 0
    signature == 0x1B4C7561 && bytecode.getD 4 0 == 0x53

end LuacGenerator

/-! ### `types/LuaTokens.ts` and `LuaLexer.ts` -/

namespace LuaLexer

/-- The `LuaTokenType` enum. -/
inductive TokenType where
  | NUMBER | STRING | BOOLEAN | NIL
  | IDENTIFIER
  | AND | BREAK | DO | ELSE | ELSEIF | END | FALSE | FOR | FUNCTION
  | IF | IN | LOCAL | NOT | OR | REPEAT | RETURN | THEN | TRUE | UNTIL | WHILE
  | PLUS | MINUS | MULTIPLY | DIVIDE | MODULO | POWER | CONCAT | LENGTH
  | EQUAL | NOT_EQUAL | LESS_THAN | LESS_EQUAL | GREATER_THAN | GREATER_EQUAL
  | ASSIGN
  | SEMICOLON | COMMA | DOT | COLON | DOUBLE_COLON
  | LPAREN | RPAREN | LBRACE | RBRACE | LBRACKET | RBRACKET
  | EOF | NEWLINE | WHITESPACE | COMMENT
  | VM_CALL | VM_HANDLER | ENCRYPTED_STRING | OBFUSCATED_NAME
deriving Repr, DecidableEq

/-- `LuaToken`. -/
structure Token where
  type : TokenType
  value : JSStr
  line : Nat
  column : Nat
  position : Nat
deriving Repr, DecidableEq

/-- The lexer's mutable scan state (its `input` field is passed separately). -/
structure LexPos where
  pos : Nat
  line : Nat
  column : Nat
deriving Repr, DecidableEq

/-- `substring(a, b)`. -/
def slice (input : JSStr) (a b : Nat) : JSStr := (input.drop a).take (b - a)

/-- `isDigit`: `/[0-9]/`. -/
def isDigitChar (c : Nat) : Bool := 48 ≤ c && c ≤ 57

/-- `isAlpha`: `/[a-zA-Z]/`. -/
def isAlphaChar (c : Nat) : Bool := (65 ≤ c && c ≤ 90) || (97 ≤ c && c ≤ 122)

/-- `isAlphaNumeric`: `/[a-zA-Z0-9]/`. -/
def isAlphaNumChar (c : Nat) : Bool := isAlphaChar c || isDigitChar c

/-- `isWhitespace`: `/\s/` — the JavaScript whitespace and line-terminator
code units. -/
def isWsChar (c : Nat) : Bool :=
  c == 9 || c == 10 || c == 11 || c == 12 || c == 13 || c == 32 || c == 160 ||
  c == 0x1680 || (0x2000 ≤ c && c ≤ 0x200A) || c == 0x2028 || c == 0x2029 ||
  c == 0x202F || c == 0x205F || c == 0x3000 || c == 0xFEFF

/-- Length of the `skipWhitespace` run from `pos`: whitespace other than
newline, stopping at end of input. -/
def wsRun (input : JSStr) (pos : Nat) : Nat :=
  if h : pos < input.length ∧ isWsChar (input.getD pos 0) ∧ input.getD pos 0 ≠ 10
  then 1 + wsRun input (pos + 1)
  else 0
termination_by input.length - pos
decreasing_by omega

/-- Length of the `readNumber` run from `pos`: digits, `.`, `e`/`E`
(`toLowerCase`), `+`, `-`. -/
def numberRun (input : JSStr) (pos : Nat) : Nat :=
  if h : pos < input.length ∧
      (isDigitChar (input.getD pos 0) ∨ input.getD pos 0 = 46 ∨
       input.getD pos 0 = 101 ∨ input.getD pos 0 = 69 ∨
       input.getD pos 0 = 43 ∨ input.getD pos 0 = 45)
  then 1 + numberRun input (pos + 1)
  else 0
termination_by input.length - pos
decreasing_by omega

/-- Length of the `readIdentifier` run from `pos`: `[a-zA-Z0-9_]`. -/
def identRun (input : JSStr) (pos : Nat) : Nat :=
  if h : pos < input.length ∧
      (isAlphaNumChar (input.getD pos 0) ∨ input.getD pos 0 = 95)
  then 1 + identRun input (pos + 1)
  else 0
termination_by input.length - pos
decreasing_by omega

/-- Length of a short-comment run from `pos`: everything up to a newline or
end of input. -/
def commentRun (input : JSStr) (pos : Nat) : Nat :=
  if h : pos < input.length ∧ input.getD pos 0 ≠ 10
  then 1 + commentRun input (pos + 1)
  else 0
termination_by input.length - pos
decreasing_by omega

/-- Characters consumed by the `readString` body loop from `pos` (after the
opening quote): stops one past the closing quote; a backslash skips the next
character when there is one. -/
def stringRun (input : JSStr) (quote pos : Nat) : Nat :=
  if h : pos < input.length then
    let c := input.getD pos 0
    if c = quote then 1
    else if c = 92 then
      if pos + 1 < input.length then 2 + stringRun input quote (pos + 2)
      else 1 + stringRun input quote (pos + 1)
    else 1 + stringRun input quote (pos + 1)
  else 0
termination_by input.length - pos
decreasing_by all_goals omega

/-- `checkLongStringStart` level run: equals signs from `pos`. -/
def eqRun (input : JSStr) (pos : Nat) : Nat :=
  if h : pos < input.length ∧ input.getD pos 0 = 61
  then 1 + eqRun input (pos + 1)
  else 0
termination_by input.length - pos
decreasing_by omega

/-- `checkLongStringStart`: at an opening `[`, the level of a long-bracket
opener `[=…=[`, or `none` (the source's `-1`). -/
def checkLongStringStart (input : JSStr) (pos : Nat) : Option Nat :=
  let level := eqRun input (pos + 1)
  if pos + 1 + level < input.length ∧ input.getD (pos + 1 + level) 0 = 91
  then some level
  else none

/-- The closing long-bracket `]=…=]` of `level` equals signs. -/
def closePat (level : Nat) : JSStr := 93 :: (List.replicate level 61 ++ [93])

/-- Characters consumed by the `readLongString` body loop from `pos`: scans
until the closing pattern (consumed) or end of input. -/
def longBodyRun (input : JSStr) (close : JSStr) (pos : Nat) : Nat :=
  if h : pos < input.length then
    if close.isPrefixOf (input.drop pos) then close.length
    else 1 + longBodyRun input close (pos + 1)
  else 0
termination_by input.length - pos
decreasing_by omega

/-- `isEncryptedString` pattern 1: `/\\x[0-9a-fA-F]{2}/`. -/
def hasHexEscape : JSStr → Bool
  | 92 :: 120 :: c1 :: c2 :: rest =>
      (match LuraphDecryptor.hexDigit c1, LuraphDecryptor.hexDigit c2 with
       | some _, some _ => true
       | _, _ => false) || hasHexEscape (120 :: c1 :: c2 :: rest)
  | _ :: rest => hasHexEscape rest
  | [] => false

/-- `isEncryptedString` pattern 2: `/\\[0-9]{1,3}/` (a backslash followed by
at least one digit). -/
def hasDecEscape : JSStr → Bool
  | 92 :: c :: rest => isDigitChar c || hasDecEscape (c :: rest)
  | _ :: rest => hasDecEscape rest
  | [] => false

/-- `isEncryptedString` pattern 3: `/[^\x20-\x7E]{5,}/`, via the current run
length of characters outside printable ASCII. -/
def hasNonPrintRun5 : JSStr → Nat → Bool
  | [], _ => false
  | c :: rest, run =>
      if c < 32 ∨ c > 126 then run + 1 ≥ 5 || hasNonPrintRun5 rest (run + 1)
      else hasNonPrintRun5 rest 0

/-- `LuaLexer.isEncryptedString`. -/
def isEncryptedString (v : JSStr) : Bool :=
  hasHexEscape v || hasDecEscape v || hasNonPrintRun5 v 0

/-- `LuaLexer.isObfuscatedName`: the three anchored patterns
`/^[a-zA-Z_][a-zA-Z0-9_]{20,}$/`, `/^[lI1oO0]{4,}$/`,
`/^[a-zA-Z]_[a-zA-Z0-9_]{10,}$/`. -/
def isObfuscatedName (v : JSStr) : Bool :=
  (match v with
   | c :: rest =>
       decide (v.length ≥ 21) && (isAlphaChar c || c == 95) &&
         rest.all (fun d => isAlphaNumChar d || d == 95)
   | [] => false) ||
  (decide (v.length ≥ 4) && v.all (fun d => d == 108 || d == 73 || d == 49 || d == 111 || d == 79 || d == 48)) ||
  (match v with
   | c :: 95 :: rest =>
       decide (v.length ≥ 12) && isAlphaChar c &&
         rest.all (fun d => isAlphaNumChar d || d == 95)
   | _ => false)

/-- ASCII lower-casing (`String.prototype.toLowerCase` on the identifier
characters the lexer can produce). -/
def lowerAscii (v : JSStr) : JSStr :=
  v.map fun c => if 65 ≤ c ∧ c ≤ 90 then c + 32 else c

/-- The keyword set together with `getKeywordTokenType`. -/
def keywordType (v : JSStr) : Option TokenType :=
  if v = js "and" then some .AND
  else if v = js "break" then some .BREAK
  else if v = js "do" then some .DO
  else if v = js "else" then some .ELSE
  else if v = js "elseif" then some .ELSEIF
  else if v = js "end" then some .END
  else if v = js "false" then some .FALSE
  else if v = js "for" then some .FOR
  else if v = js "function" then some .FUNCTION
  else if v = js "if" then some .IF
  else if v = js "in" then some .IN
  else if v = js "local" then some .LOCAL
  else if v = js "nil" then some .NIL
  else if v = js "not" then some .NOT
  else if v = js "or" then some .OR
  else if v = js "repeat" then some .REPEAT
  else if v = js "return" then some .RETURN
  else if v = js "then" then some .THEN
  else if v = js "true" then some .TRUE
  else if v = js "until" then some .UNTIL
  else if v = js "while" then some .WHILE
  else none

/-- The two-character-operator `switch` of `nextToken`
(`this.input.substr(this.position, 2)`; each case consumes 2). -/
def twoCharTok (c : Nat) (next : Option Nat) : Option (TokenType × JSStr) :=
  if c = 61 ∧ next = some 61 then some (.EQUAL, js "==")
  else if c = 126 ∧ next = some 61 then some (.NOT_EQUAL, js "~=")
  else if c = 60 ∧ next = some 61 then some (.LESS_EQUAL, js "<=")
  else if c = 62 ∧ next = some 61 then some (.GREATER_EQUAL, js ">=")
  else if c = 46 ∧ next = some 46 then some (.CONCAT, js "..")
  else if c = 58 ∧ next = some 58 then some (.DOUBLE_COLON, js "::")
  else none

/-- The single-character `switch` of `nextToken` (each case consumes 1);
`none` is the fall-through to the unknown-character epilogue. -/
def singleCharTok (c : Nat) : Option (TokenType × JSStr) :=
  if c = 43 then some (.PLUS, js "+")
  else if c = 45 then some (.MINUS, js "-")
  else if c = 42 then some (.MULTIPLY, js "*")
  else if c = 47 then some (.DIVIDE, js "/")
  else if c = 37 then some (.MODULO, js "%")
  else if c = 94 then some (.POWER, js "^")
  else if c = 35 then some (.LENGTH, js "#")
  else if c = 60 then some (.LESS_THAN, js "<")
  else if c = 62 then some (.GREATER_THAN, js ">")
  else if c = 61 then some (.ASSIGN, js "=")
  else if c = 59 then some (.SEMICOLON, js ";")
  else if c = 44 then some (.COMMA, js ",")
  else if c = 46 then some (.DOT, js ".")
  else if c = 58 then some (.COLON, js ":")
  else if c = 40 then some (.LPAREN, js "(")
  else if c = 41 then some (.RPAREN, js ")")
  else if c = 123 then some (.LBRACE, js "\x7b")
  else if c = 125 then some (.RBRACE, js "\x7d")
  else if c = 91 then some (.LBRACKET, js "[")
  else if c = 93 then some (.RBRACKET, js "]")
  else if c = 10 then some (.NEWLINE, js "\n")
  else none

/-- `LuaLexer.nextToken` at `pos` (with `pos < input.length`): the optional
token data (`null` for an unknown character) and the number of characters
consumed.  Branches appear in source order; for the looping branches the
first character was just matched by the branch guard, so the loop length is
written `1 + run (pos + 1)`. -/
def nextTokenRes (input : JSStr) (pos : Nat) : Option (TokenType × JSStr) × Nat :=
  let c := input.getD pos 0
  if c = 45 ∧ input.get? (pos + 1) = some 45 then
    -- readComment: after the two dashes, a long-bracket body or a
    -- to-end-of-line body; either way the token is the consumed slice
    if pos + 2 < input.length ∧ input.getD (pos + 2) 0 = 91 ∧
        (checkLongStringStart input (pos + 2)).isSome then
      let level := (checkLongStringStart input (pos + 2)).getD 0
      let k := 2 + (level + 2) + longBodyRun input (closePat level) (pos + 2 + (level + 2))
      (some (.COMMENT, slice input pos (pos + k)), k)
    else
      let k := 2 + commentRun input (pos + 2)
      (some (.COMMENT, slice input pos (pos + k)), k)
  else if isDigitChar c then
    let k := 1 + numberRun input (pos + 1)
    (some (.NUMBER, slice input pos (pos + k)), k)
  else if c = 34 ∨ c = 39 then
    let k := 1 + stringRun input c (pos + 1)
    let v := slice input pos (pos + k)
    (some (if isEncryptedString v then .ENCRYPTED_STRING else .STRING, v), k)
  else if c = 91 ∧ (checkLongStringStart input pos).isSome then
    let level := (checkLongStringStart input pos).getD 0
    let k := (level + 2) + longBodyRun input (closePat level) (pos + (level + 2))
    (some (.STRING, slice input pos (pos + k)), k)
  else if isAlphaChar c ∨ c = 95 then
    let k := 1 + identRun input (pos + 1)
    let v := slice input pos (pos + k)
    match keywordType (lowerAscii v) with
    | some ty => (some (ty, v), k)
    | none =>
        (some (if isObfuscatedName v then .OBFUSCATED_NAME else .IDENTIFIER, v), k)
  else
    match twoCharTok c (input.get? (pos + 1)) with
    | some td => (some td, 2)
    | none =>
      match singleCharTok c with
      | some td => (some td, 1)
      | none => (none, 1)

/-- `LuaLexer.advance()` for one character: position, line and column
updates (only when not already at the end). -/
def advance1 (input : JSStr) (s : LexPos) : LexPos :=
  if s.pos < input.length then
    if input.getD s.pos 0 = 10 then ⟨s.pos + 1, s.line + 1, 1⟩
    else ⟨s.pos + 1, s.line, s.column + 1⟩
  else s

/-- `advance(count)`. -/
def advanceN (input : JSStr) (s : LexPos) : Nat → LexPos
  | 0 => s
  | k + 1 => advanceN input (advance1 input s) k

/-- Infrastructure for the termination of `tokenizeGo`: `advance1` moves the
position forward by exactly one while input remains, and never backwards. -/
theorem advance1_pos (input : JSStr) (s : LexPos) :
    (advance1 input s).pos = if s.pos < input.length then s.pos + 1 else s.pos := by
  unfold advance1
  split
  · split <;> simp_all
  · simp_all

/-- Infrastructure: `advanceN` never moves the position backwards. -/
theorem advanceN_pos_ge (input : JSStr) :
    ∀ (k : Nat) (s : LexPos), s.pos ≤ (advanceN input s k).pos := by
  intro k
  induction k with
  | zero => intro s; simp [advanceN]
  | succ n ih =>
      intro s
      have h1 := advance1_pos input s
      have h2 := ih (advance1 input s)
      simp only [advanceN]
      split at h1 <;> omega

/-- Infrastructure: consuming at least one character while input remains
moves the position strictly forward. -/
theorem advanceN_pos_gt (input : JSStr) (s : LexPos) (k : Nat)
    (hk : 1 ≤ k) (hs : s.pos < input.length) : s.pos < (advanceN input s k).pos := by
  obtain ⟨m, rfl⟩ : ∃ m, k = m + 1 := ⟨k - 1, by omega⟩
  have h1 := advance1_pos input s
  have h2 := advanceN_pos_ge input m (advance1 input s)
  simp only [advanceN]
  split at h1 <;> omega

/-- Infrastructure: every `nextToken` branch consumes at least one
character. -/
theorem nextTokenRes_consumes (input : JSStr) (pos : Nat) :
    1 ≤ (nextTokenRes input pos).2 := by
  unfold nextTokenRes
  dsimp only
  repeat' split
  all_goals try dsimp only
  all_goals omega

/-- The trailing EOF token (empty value, current position). -/
def mkEOF (s : LexPos) : Token := ⟨.EOF, [], s.line, s.column, s.pos⟩

/-- The `tokenize` loop: skip whitespace, stop if at the end, read one
token (dropped when `nextToken` returns `null`), repeat; then the EOF
token. -/
def tokenizeGo (input : JSStr) (s : LexPos) : List Token :=
  if h : s.pos < input.length then
    let s1 := advanceN input s (wsRun input s.pos)
    if h2 : s1.pos < input.length then
      let r := nextTokenRes input s1.pos
      let s2 := advanceN input s1 r.2
      match r.1 with
      | some td =>
          ⟨td.1, td.2, s1.line, s1.column, s1.pos⟩ :: tokenizeGo input s2
      | none => tokenizeGo input s2
    else [mkEOF s1]
  else [mkEOF s]
termination_by input.length - s.pos
decreasing_by
  all_goals
    have hge : s.pos ≤ (advanceN input s (wsRun input s.pos)).pos :=
      advanceN_pos_ge input (wsRun input s.pos) s
    have hgt := advanceN_pos_gt input (advanceN input s (wsRun input s.pos))
      (nextTokenRes input (advanceN input s (wsRun input s.pos)).pos).2
      (nextTokenRes_consumes input (advanceN input s (wsRun input s.pos)).pos) h2
    omega

/-- `LuaLexer.tokenize`: scan from position 0, line 1, column 1. -/
def tokenize (input : JSStr) : List Token := tokenizeGo input ⟨0, 1, 1⟩

end LuaLexer

/-! ### `LuaParser.ts`

The parser-constructed AST.  Parser nodes never receive a `children` array
(only typed fields), and the `position` the parser stores is never read by
any later pass, so it is dropped from the embedding.  Exceptions thrown by
`consume`/`parsePrimary` (and `TypeError` from reading a field of
`undefined`) are `Except` values carrying the mutable state at the throw
site, since that state survives into the `catch` in `parseStatement`.
Mutual recursion is driven by a fuel parameter; running out of fuel is the
distinguished error `PErr.outOfFuel`, which `parseStatement`'s catch does
not swallow, so a fuel-complete run (one not returning `outOfFuel`) agrees
step for step with the JavaScript execution. -/

namespace LuaParser

open LuaLexer (Token TokenType)

/-- A JavaScript `Literal` value: string, number, boolean or `null`.
Numbers are modelled as exact rationals (`parseFloat` rounding to binary64
is not modelled; no claim depends on a literal numeric value). -/
inductive LuaVal where
  | str (s : JSStr)
  | num (q : ℚ)
  | boolean (b : Bool)
  | nullV
deriving Repr, DecidableEq

/-- The AST node sum (`types/ASTNodes.ts`), restricted to the shapes the
parser constructs. -/
inductive LNode where
  | Literal (value : LuaVal) (dataType : String)
  | Identifier (name : JSStr) (isObfuscated : Bool)
  | FunctionDeclaration (name : LNode) (parameters : List LNode) (body : LNode)
      (isLocal : Bool) (isVMHandler : Bool) (handlerIndex : Option Int)
  | CallExpression (callee : LNode) (args : List LNode) (isVMCall : Bool)
      (vmOperation : Option String)
  | BlockStatement (statements : List LNode)
  | AssignmentExpression (left : List LNode) (right : List LNode) (isLocal : Bool)
  | TableConstructor (fields : List LNode) (isConstantTable : Bool)
  | TableField (key : Option LNode) (value : LNode) (kind : String)
  | IfStatement (condition : LNode) (consequent : LNode) (alternate : Option LNode)
  | ForStatement (init : LNode) (condition : LNode) (update : LNode) (body : LNode)
      (kind : String)
  | WhileStatement (condition : LNode) (body : LNode)
  | ReturnStatement (args : List LNode)
  | BinaryExpression (left : LNode) (operator : JSStr) (right : LNode)
  | UnaryExpression (operator : JSStr) (argument : LNode)
  | EncryptedString (encryptedValue : JSStr) (encryptionMethod : String)
deriving Repr

/-- The name of an `Identifier` node (`node.name`; other nodes have no such
field, reading it yields `undefined`, collapsed to the empty string where
the sources immediately stringify it). -/
def LNode.idName : LNode → JSStr
  | .Identifier n _ => n
  | _ => []

/-- The parser's mutable state: the filtered token array and `position`
(`current` is always `tokens[position] || tokens[tokens.length - 1]`; the
only direct write to `position` outside `advance` — the checkpoint reset in
`parseForStatement` — happens when no token was consumed since the
checkpoint, so the derived view is exact). -/
structure PState where
  tokens : List Token
  position : Nat
deriving Repr, DecidableEq

/-- `this.current`. -/
def cur (s : PState) : Option Token :=
  match s.tokens.get? s.position with
  | some t => some t
  | none => s.tokens.getLast?

/-- `this.previous()` (`tokens[position - 1]`, `undefined` at position 0). -/
def prev (s : PState) : Option Token :=
  if s.position = 0 then none else s.tokens.get? (s.position - 1)

/-- `this.isAtEnd()`. -/
def pAtEnd (s : PState) : Bool :=
  s.position ≥ s.tokens.length ||
    (match cur s with
     | some t => t.type == .EOF
     | none => false)

/-- `this.check(type)`. -/
def check (s : PState) (ty : TokenType) : Bool :=
  !pAtEnd s &&
    (match cur s with
     | some t => t.type == ty
     | none => false)

/-- `this.advance()` (state part; its return value is `prev` of the new
state). -/
def advance (s : PState) : PState :=
  if pAtEnd s then s else { s with position := s.position + 1 }

/-- `this.match(...types)`: whether one matched, and the state after. -/
def matchAny (s : PState) (tys : List TokenType) : Bool × PState :=
  if tys.any (check s) then (true, advance s) else (false, s)

/-- Errors the parser can raise: `Error(message + '. Got: ' + got)` from
`consume`, `Error('Unexpected token: ' + got)` from `parsePrimary`,
`TypeError` from reading a field of `undefined`, and the fuel marker. -/
inductive PErr where
  | err (message : String) (got : JSStr)
  | typeError
  | outOfFuel
deriving Repr, DecidableEq

/-- `this.current?.value || 'EOF'` as interpolated into thrown messages. -/
def gotStr (s : PState) : JSStr :=
  match cur s with
  | some t => if t.value.isEmpty then js "EOF" else t.value
  | none => js "EOF"

/-- The parser's exception monad: errors carry the state at the throw
site. -/
abbrev ExceptP := Except (PErr × PState)

/-- Outcome of a parser routine: a value with the state after, or an error
with the state at the throw site. -/
abbrev PRes (α : Type) := ExceptP (α × PState)

/-- `this.consume(type, message)`: returns the consumed token. -/
def consume (s : PState) (ty : TokenType) (message : String) : PRes Token :=
  if check s ty then
    let s1 := advance s
    match prev s1 with
    | some t => .ok (t, s1)
    | none => .error (.typeError, s1)
  else .error (.err message (gotStr s), s)

/-- `this.parseIdentifier()`: reads `this.previous()` without consuming
anything; on `undefined` the field reads throw `TypeError`. -/
def parseIdentifier (s : PState) : PRes LNode :=
  match prev s with
  | some t => .ok (.Identifier t.value (t.type == .OBFUSCATED_NAME), s)
  | none => .error (.typeError, s)

/-- The loop of `synchronize`, after the initial `advance`: stop just past a
semicolon or at a statement keyword. -/
def syncLoop (s : PState) : PState :=
  if h : pAtEnd s then s
  else if (prev s).map (·.type) = some .SEMICOLON then s
  else
    match cur s with
    | some t =>
        if t.type = .FUNCTION ∨ t.type = .LOCAL ∨ t.type = .FOR ∨
            t.type = .IF ∨ t.type = .WHILE ∨ t.type = .RETURN then s
        else syncLoop (advance s)
    | none => syncLoop (advance s)
termination_by s.tokens.length - s.position
decreasing_by
  all_goals
    have hne : pAtEnd s = false := by simpa using h
    have hlt : s.position < s.tokens.length := by
      simp only [pAtEnd, Bool.or_eq_false_iff, decide_eq_false_iff_not, ge_iff_le,
        not_le] at hne
      exact hne.1
    simp [advance, hne]
    omega

/-- `this.synchronize()`: advance once, then `syncLoop`. -/
def synchronize (s : PState) : PState := syncLoop (advance s)

/-- First run of decimal digits in a name (`/(\d+)/`), as a number;
`parseInt` of it, or −1 when the name has no digits
(`extractHandlerIndex`). -/
def firstDigitRun : JSStr → Option Nat
  | [] => none
  | c :: rest =>
      if LuaLexer.isDigitChar c then
        some (((c :: rest).takeWhile LuaLexer.isDigitChar).foldl
          (fun acc d => 10 * acc + (d - 48)) 0)
      else firstDigitRun rest

/-- `LuaParser.extractHandlerIndex`. -/
def extractHandlerIndex (name : JSStr) : Int :=
  match firstDigitRun name with
  | some n => (n : Int)
  | none => -1

/-- Unanchored test for `handler_` / `vm_` followed by one more matching
character (`/handler_\d+/`, `/vm_\w+/`), and for
`/[a-zA-Z_][a-zA-Z0-9_]{20,}/` (some character of the first class followed
by at least 20 word characters). -/
def hasSubFollowed (pat : JSStr) (follow : Nat → Bool) : JSStr → Bool
  | [] => false
  | c :: rest =>
      (pat.isPrefixOf (c :: rest) &&
        (match ((c :: rest).drop pat.length).head? with
         | some d => follow d
         | none => false)) ||
      hasSubFollowed pat follow rest

/-- `/[a-zA-Z_][a-zA-Z0-9_]{20,}/` as an unanchored substring test. -/
def hasLongNameRun : JSStr → Bool
  | [] => false
  | c :: rest =>
      ((LuaLexer.isAlphaChar c || c == 95) &&
        decide (20 ≤ (rest.takeWhile fun d => LuaLexer.isAlphaNumChar d || d == 95).length)) ||
      hasLongNameRun rest

/-- `LuaParser.isVMCall`. -/
def isVMCall (callee : LNode) (args : List LNode) : Bool :=
  match callee with
  | .Identifier name _ =>
      (js "vm_").isPrefixOf name || (js "handler_").isPrefixOf name ||
      (js "op_").isPrefixOf name || (js "exec_").isPrefixOf name ||
      (decide (args.length ≥ 3) && decide (name.length > 15))
  | _ => false

/-- `LuaParser.hasVMOperations`: some top-level statement is a call whose
callee/arguments pass `isVMCall`. -/
def hasVMOperations (body : LNode) : Bool :=
  match body with
  | .BlockStatement stmts =>
      stmts.any fun stmt =>
        match stmt with
        | .CallExpression callee args _ _ => isVMCall callee args
        | _ => false
  | _ => false

/-- `LuaParser.isVMHandler` (name patterns, or VM operations in the body). -/
def isVMHandler (name : JSStr) (body : LNode) : Bool :=
  hasSubFollowed (js "handler_") LuaLexer.isDigitChar name ||
  hasSubFollowed (js "vm_") (fun d => LuaLexer.isAlphaNumChar d || d == 95) name ||
  hasLongNameRun name ||
  hasVMOperations body

/-- `LuaParser.detectVMOperation`. -/
def detectVMOperation (callee : LNode) : String :=
  match callee with
  | .Identifier name _ =>
      if LuraphDecryptor.hasSub (js "move") name || LuraphDecryptor.hasSub (js "MOVE") name then "MOVE"
      else if LuraphDecryptor.hasSub (js "load") name || LuraphDecryptor.hasSub (js "LOAD") name then "LOADK"
      else if LuraphDecryptor.hasSub (js "call") name || LuraphDecryptor.hasSub (js "CALL") name then "CALL"
      else if LuraphDecryptor.hasSub (js "jump") name || LuraphDecryptor.hasSub (js "JMP") name then "JMP"
      else "unknown"
  | _ => "unknown"

/-- `LuaParser.isConstantTable`: every field value is a literal or encrypted
string, and more than 5 fields. -/
def isConstTableFields (fields : List LNode) : Bool :=
  fields.all (fun f =>
    match f with
    | .TableField _ v _ =>
        (match v with
         | .Literal _ _ => true
         | .EncryptedString _ _ => true
         | _ => false)
    | _ => false) && decide (fields.length > 5)

/-- `parseFloat` on a number token (which always starts with a digit), as an
exact rational: leading digits, an optional fraction, and an optional
exponent (ignored when its digits are missing). -/
def jsParseFloat (v : JSStr) : ℚ :=
  let intPart := v.takeWhile LuaLexer.isDigitChar
  let intVal : ℚ := intPart.foldl (fun acc d => 10 * acc + ((d : ℚ) - 48)) 0
  let rest := v.drop intPart.length
  let fracPart :=
    match rest with
    | 46 :: r => r.takeWhile LuaLexer.isDigitChar
    | _ => []
  let fracVal : ℚ :=
    (fracPart.foldl (fun acc d => 10 * acc + ((d : ℚ) - 48)) 0) / (10 ^ fracPart.length)
  let rest2 :=
    match rest with
    | 46 :: r => r.drop fracPart.length
    | _ => rest
  let expFactor : ℚ :=
    match rest2 with
    | c :: r =>
        if c = 101 ∨ c = 69 then
          let (sgn, digits) :=
            match r with
            | 43 :: r2 => ((1 : Int), r2.takeWhile LuaLexer.isDigitChar)
            | 45 :: r2 => ((-1 : Int), r2.takeWhile LuaLexer.isDigitChar)
            | _ => ((1 : Int), r.takeWhile LuaLexer.isDigitChar)
          if digits.isEmpty then 1
          else (10 : ℚ) ^ (sgn * (digits.foldl (fun acc d => 10 * acc + ((d : Int) - 48)) 0))
        else 1
    | [] => 1
  (intVal + fracVal) * expFactor

/-- `this.previous()` where the sources immediately read its fields
(`TypeError` on `undefined`). -/
def getPrev (s : PState) : PRes Token :=
  match prev s with
  | some t => .ok (t, s)
  | none => .error (.typeError, s)

/-- The newline-skipping loop at the top of `parseStatement`. -/
def skipNewlines (s : PState) : PState :=
  if h : check s .NEWLINE then skipNewlines (advance s) else s
termination_by s.tokens.length - s.position
decreasing_by
  have hne : pAtEnd s = false := by
    simp only [check, Bool.and_eq_true, Bool.not_eq_true'] at h
    exact h.1
  have hlt : s.position < s.tokens.length := by
    simp only [pAtEnd, Bool.or_eq_false_iff, decide_eq_false_iff_not, ge_iff_le,
      not_le] at hne
    exact hne.1
  simp [advance, hne]
  omega

mutual

/-- `parseStatement`: skip newlines, dispatch on the statement keyword, and
catch any thrown error (other than the fuel marker) by synchronizing and
returning `null`. -/
def parseStatement : Nat → PState → Except (PErr × PState) (Option LNode × PState)
  | 0, s => .error (.outOfFuel, s)
  | fuel + 1, s =>
      let s := skipNewlines s
      if pAtEnd s then .ok (none, s)
      else
        let r : PRes LNode :=
          let (m, s1) := matchAny s [.LOCAL]
          if m then parseLocalStatement fuel s1
          else
            let (m, s1) := matchAny s [.FUNCTION]
            if m then parseFunctionDeclaration fuel s1 false
            else
              let (m, s1) := matchAny s [.IF]
              if m then parseIfStatement fuel s1
              else
                let (m, s1) := matchAny s [.FOR]
                if m then parseForStatement fuel s1
                else
                  let (m, s1) := matchAny s [.WHILE]
                  if m then parseWhileStatement fuel s1
                  else
                    let (m, s1) := matchAny s [.RETURN]
                    if m then parseReturnStatement fuel s1
                    else parseExpressionStatement fuel s
        match r with
        | .ok (st, s1) => .ok (some st, s1)
        | .error (.outOfFuel, s1) => .error (.outOfFuel, s1)
        | .error (_, s1) => .ok (none, synchronize s1)

/-- `parseLocalStatement`. -/
def parseLocalStatement : Nat → PState → ExceptP (LNode × PState)
  | 0, s => .error (.outOfFuel, s)
  | fuel + 1, s =>
      if check s .FUNCTION then parseFunctionDeclaration fuel (advance s) true
      else do
        let (n0, s) ← parseIdentifier s
        let (names, s) ← parseNamesLoop fuel s [n0]
        let (m, s1) := matchAny s [.ASSIGN]
        if m then do
          let (values, s2) ← parseExpressionList fuel s1
          .ok (.AssignmentExpression names values true, s2)
        else .ok (.AssignmentExpression names [] true, s1)

/-- The `while (match(COMMA)) names.push(parseIdentifier())` loops of
`parseLocalStatement` and the generic `for` branch. -/
def parseNamesLoop : Nat → PState → List LNode → ExceptP (List LNode × PState)
  | 0, s, _ => .error (.outOfFuel, s)
  | fuel + 1, s, acc =>
      let (m, s1) := matchAny s [.COMMA]
      if m then do
        let (n, s2) ← parseIdentifier s1
        parseNamesLoop fuel s2 (acc ++ [n])
      else .ok (acc, s)

/-- `parseFunctionDeclaration` (note: `parseIdentifier` reads `previous()`,
which at this point is still the `function` keyword token). -/
def parseFunctionDeclaration : Nat → PState → Bool → ExceptP (LNode × PState)
  | 0, s, _ => .error (.outOfFuel, s)
  | fuel + 1, s, isLocal => do
      let (name, s) ← parseIdentifier s
      let (_, s) ← consume s .LPAREN "Expected '(' after function name"
      let (params, s) ←
        if check s .RPAREN then (.ok ([], s) : ExceptP (List LNode × PState))
        else do
          let (p0, s1) ← parseIdentifier s
          parseParamsLoop fuel s1 [p0]
      let (_, s) ← consume s .RPAREN "Expected ')' after parameters"
      let (body, s) ← parseBlock fuel s
      let (_, s) ← consume s .END "Expected 'end' after function body"
      let isVM := isVMHandler name.idName body
      .ok (.FunctionDeclaration name params body isLocal isVM
            (if isVM then some (extractHandlerIndex name.idName) else none), s)

/-- The parameter-list loop of `parseFunctionDeclaration`. -/
def parseParamsLoop : Nat → PState → List LNode → ExceptP (List LNode × PState)
  | 0, s, _ => .error (.outOfFuel, s)
  | fuel + 1, s, acc =>
      let (m, s1) := matchAny s [.COMMA]
      if m then do
        let (p, s2) ← parseIdentifier s1
        parseParamsLoop fuel s2 (acc ++ [p])
      else .ok (acc, s)

/-- `parseIfStatement` (recursing for `elseif`). -/
def parseIfStatement : Nat → PState → ExceptP (LNode × PState)
  | 0, s => .error (.outOfFuel, s)
  | fuel + 1, s => do
      let (condition, s) ← parseExpression fuel s
      let (_, s) ← consume s .THEN "Expected 'then' after if condition"
      let (consequent, s) ← parseBlock fuel s
      let (m1, s1) := matchAny s [.ELSEIF]
      if m1 then do
        let (alt, s2) ← parseIfStatement fuel s1
        let (_, s3) ← consume s2 .END "Expected 'end' after if statement"
        .ok (.IfStatement condition consequent (some alt), s3)
      else
        let (m2, s2) := matchAny s1 [.ELSE]
        if m2 then do
          let (alt, s3) ← parseBlock fuel s2
          let (_, s4) ← consume s3 .END "Expected 'end' after if statement"
          .ok (.IfStatement condition consequent (some alt), s4)
        else do
          let (_, s3) ← consume s2 .END "Expected 'end' after if statement"
          .ok (.IfStatement condition consequent none, s3)

/-- `parseForStatement` (`parseIdentifier` again reads the `for` keyword
token; the `position = checkpoint` reset in the generic branch restores a
position that was never moved). -/
def parseForStatement : Nat → PState → ExceptP (LNode × PState)
  | 0, s => .error (.outOfFuel, s)
  | fuel + 1, s => do
      let (identifier, s0) ← parseIdentifier s
      let (m, s1) := matchAny s0 [.ASSIGN]
      if m then do
        let (init, s2) ← parseExpression fuel s1
        let (_, s3) ← consume s2 .COMMA "Expected ',' in numeric for loop"
        let (limit, s4) ← parseExpression fuel s3
        let (m2, s5) := matchAny s4 [.COMMA]
        let (step, s6) ←
          if m2 then do
            let (st, s6) ← parseExpression fuel s5
            (.ok (some st, s6) : ExceptP (Option LNode × PState))
          else (.ok (none, s5) : ExceptP (Option LNode × PState))
        let (_, s7) ← consume s6 .DO "Expected 'do' after for clause"
        let (body, s8) ← parseBlock fuel s7
        let (_, s9) ← consume s8 .END "Expected 'end' after for body"
        .ok (.ForStatement (.AssignmentExpression [identifier] [init] true) limit
              (step.getD (.Literal (.num 1) "number")) body "numeric", s9)
      else do
        let (n0, s2) ← parseIdentifier s1
        let (names, s3) ← parseNamesLoop fuel s2 [n0]
        let (_, s4) ← consume s3 .IN "Expected 'in' in generic for loop"
        let (expressions, s5) ← parseExpressionList fuel s4
        let (_, s6) ← consume s5 .DO "Expected 'do' after for clause"
        let (body, s7) ← parseBlock fuel s6
        let (_, s8) ← consume s7 .END "Expected 'end' after for body"
        .ok (.ForStatement (.AssignmentExpression names expressions true)
              (expressions.getD 0 (.Literal .nullV "nil"))
              (.Literal .nullV "nil") body "generic", s8)

/-- `parseWhileStatement`. -/
def parseWhileStatement : Nat → PState → ExceptP (LNode × PState)
  | 0, s => .error (.outOfFuel, s)
  | fuel + 1, s => do
      let (condition, s) ← parseExpression fuel s
      let (_, s) ← consume s .DO "Expected 'do' after while condition"
      let (body, s) ← parseBlock fuel s
      let (_, s) ← consume s .END "Expected 'end' after while body"
      .ok (.WhileStatement condition body, s)

/-- `parseReturnStatement`. -/
def parseReturnStatement : Nat → PState → ExceptP (LNode × PState)
  | 0, s => .error (.outOfFuel, s)
  | fuel + 1, s =>
      if !check s .NEWLINE && !check s .END && !pAtEnd s then do
        let (args, s1) ← parseExpressionList fuel s
        .ok (.ReturnStatement args, s1)
      else .ok (.ReturnStatement [], s)

/-- `parseExpressionStatement`. -/
def parseExpressionStatement : Nat → PState → ExceptP (LNode × PState)
  | 0, s => .error (.outOfFuel, s)
  | fuel + 1, s => do
      let (expr, s) ← parseExpression fuel s
      let (m, s1) := matchAny s [.ASSIGN]
      if m then do
        let (values, s2) ← parseExpressionList fuel s1
        .ok (.AssignmentExpression [expr] values false, s2)
      else .ok (expr, s1)

/-- `parseBlock`. -/
def parseBlock : Nat → PState → ExceptP (LNode × PState)
  | 0, s => .error (.outOfFuel, s)
  | fuel + 1, s => do
      let (stmts, s1) ← parseBlockLoop fuel s []
      .ok (.BlockStatement stmts, s1)

/-- The statement loop of `parseBlock`. -/
def parseBlockLoop : Nat → PState → List LNode → ExceptP (List LNode × PState)
  | 0, s, _ => .error (.outOfFuel, s)
  | fuel + 1, s, acc =>
      if !check s .END && !check s .ELSE && !check s .ELSEIF && !pAtEnd s then
        match parseStatement fuel s with
        | .error e => .error e
        | .ok (stOpt, s1) =>
            parseBlockLoop fuel s1
              (match stOpt with | some st => acc ++ [st] | none => acc)
      else .ok (acc, s)

/-- `parseExpression`. -/
def parseExpression : Nat → PState → ExceptP (LNode × PState)
  | 0, s => .error (.outOfFuel, s)
  | fuel + 1, s => parseOr fuel s

/-- `parseOr`. -/
def parseOr : Nat → PState → ExceptP (LNode × PState)
  | 0, s => .error (.outOfFuel, s)
  | fuel + 1, s => do
      let (e, s1) ← parseAnd fuel s
      parseOrLoop fuel s1 e

/-- The `while (match(OR))` loop. -/
def parseOrLoop : Nat → PState → LNode → ExceptP (LNode × PState)
  | 0, s, _ => .error (.outOfFuel, s)
  | fuel + 1, s, e =>
      let (m, s1) := matchAny s [.OR]
      if m then do
        let (opTok, _) ← getPrev s1
        let (right, s2) ← parseAnd fuel s1
        parseOrLoop fuel s2 (.BinaryExpression e opTok.value right)
      else .ok (e, s)

/-- `parseAnd`. -/
def parseAnd : Nat → PState → ExceptP (LNode × PState)
  | 0, s => .error (.outOfFuel, s)
  | fuel + 1, s => do
      let (e, s1) ← parseEquality fuel s
      parseAndLoop fuel s1 e

/-- The `while (match(AND))` loop. -/
def parseAndLoop : Nat → PState → LNode → ExceptP (LNode × PState)
  | 0, s, _ => .error (.outOfFuel, s)
  | fuel + 1, s, e =>
      let (m, s1) := matchAny s [.AND]
      if m then do
        let (opTok, _) ← getPrev s1
        let (right, s2) ← parseEquality fuel s1
        parseAndLoop fuel s2 (.BinaryExpression e opTok.value right)
      else .ok (e, s)

/-- `parseEquality`. -/
def parseEquality : Nat → PState → ExceptP (LNode × PState)
  | 0, s => .error (.outOfFuel, s)
  | fuel + 1, s => do
      let (e, s1) ← parseComparison fuel s
      parseEqualityLoop fuel s1 e

/-- The `while (match(EQUAL, NOT_EQUAL))` loop. -/
def parseEqualityLoop : Nat → PState → LNode → ExceptP (LNode × PState)
  | 0, s, _ => .error (.outOfFuel, s)
  | fuel + 1, s, e =>
      let (m, s1) := matchAny s [.EQUAL, .NOT_EQUAL]
      if m then do
        let (opTok, _) ← getPrev s1
        let (right, s2) ← parseComparison fuel s1
        parseEqualityLoop fuel s2 (.BinaryExpression e opTok.value right)
      else .ok (e, s)

/-- `parseComparison`. -/
def parseComparison : Nat → PState → ExceptP (LNode × PState)
  | 0, s => .error (.outOfFuel, s)
  | fuel + 1, s => do
      let (e, s1) ← parseConcat fuel s
      parseComparisonLoop fuel s1 e

/-- The comparison-operator loop. -/
def parseComparisonLoop : Nat → PState → LNode → ExceptP (LNode × PState)
  | 0, s, _ => .error (.outOfFuel, s)
  | fuel + 1, s, e =>
      let (m, s1) := matchAny s [.GREATER_THAN, .GREATER_EQUAL, .LESS_THAN, .LESS_EQUAL]
      if m then do
        let (opTok, _) ← getPrev s1
        let (right, s2) ← parseConcat fuel s1
        parseComparisonLoop fuel s2 (.BinaryExpression e opTok.value right)
      else .ok (e, s)

/-- `parseConcat`. -/
def parseConcat : Nat → PState → ExceptP (LNode × PState)
  | 0, s => .error (.outOfFuel, s)
  | fuel + 1, s => do
      let (e, s1) ← parseAdditive fuel s
      parseConcatLoop fuel s1 e

/-- The `while (match(CONCAT))` loop. -/
def parseConcatLoop : Nat → PState → LNode → ExceptP (LNode × PState)
  | 0, s, _ => .error (.outOfFuel, s)
  | fuel + 1, s, e =>
      let (m, s1) := matchAny s [.CONCAT]
      if m then do
        let (opTok, _) ← getPrev s1
        let (right, s2) ← parseAdditive fuel s1
        parseConcatLoop fuel s2 (.BinaryExpression e opTok.value right)
      else .ok (e, s)

/-- `parseAdditive`. -/
def parseAdditive : Nat → PState → ExceptP (LNode × PState)
  | 0, s => .error (.outOfFuel, s)
  | fuel + 1, s => do
      let (e, s1) ← parseMultiplicative fuel s
      parseAdditiveLoop fuel s1 e

/-- The `while (match(PLUS, MINUS))` loop. -/
def parseAdditiveLoop : Nat → PState → LNode → ExceptP (LNode × PState)
  | 0, s, _ => .error (.outOfFuel, s)
  | fuel + 1, s, e =>
      let (m, s1) := matchAny s [.PLUS, .MINUS]
      if m then do
        let (opTok, _) ← getPrev s1
        let (right, s2) ← parseMultiplicative fuel s1
        parseAdditiveLoop fuel s2 (.BinaryExpression e opTok.value right)
      else .ok (e, s)

/-- `parseMultiplicative`. -/
def parseMultiplicative : Nat → PState → ExceptP (LNode × PState)
  | 0, s => .error (.outOfFuel, s)
  | fuel + 1, s => do
      let (e, s1) ← parseUnary fuel s
      parseMultiplicativeLoop fuel s1 e

/-- The `while (match(MULTIPLY, DIVIDE, MODULO))` loop. -/
def parseMultiplicativeLoop : Nat → PState → LNode → ExceptP (LNode × PState)
  | 0, s, _ => .error (.outOfFuel, s)
  | fuel + 1, s, e =>
      let (m, s1) := matchAny s [.MULTIPLY, .DIVIDE, .MODULO]
      if m then do
        let (opTok, _) ← getPrev s1
        let (right, s2) ← parseUnary fuel s1
        parseMultiplicativeLoop fuel s2 (.BinaryExpression e opTok.value right)
      else .ok (e, s)

/-- `parseUnary`. -/
def parseUnary : Nat → PState → ExceptP (LNode × PState)
  | 0, s => .error (.outOfFuel, s)
  | fuel + 1, s =>
      let (m, s1) := matchAny s [.NOT, .MINUS, .LENGTH]
      if m then do
        let (opTok, _) ← getPrev s1
        let (right, s2) ← parseUnary fuel s1
        .ok (.UnaryExpression opTok.value right, s2)
      else parsePower fuel s

/-- `parsePower` (right-associative: the loop body recurses into
`parseUnary`). -/
def parsePower : Nat → PState → ExceptP (LNode × PState)
  | 0, s => .error (.outOfFuel, s)
  | fuel + 1, s => do
      let (e, s1) ← parseCall fuel s
      parsePowerLoop fuel s1 e

/-- The `while (match(POWER))` loop. -/
def parsePowerLoop : Nat → PState → LNode → ExceptP (LNode × PState)
  | 0, s, _ => .error (.outOfFuel, s)
  | fuel + 1, s, e =>
      let (m, s1) := matchAny s [.POWER]
      if m then do
        let (opTok, _) ← getPrev s1
        let (right, s2) ← parseUnary fuel s1
        parsePowerLoop fuel s2 (.BinaryExpression e opTok.value right)
      else .ok (e, s)

/-- `parseCall`. -/
def parseCall : Nat → PState → ExceptP (LNode × PState)
  | 0, s => .error (.outOfFuel, s)
  | fuel + 1, s => do
      let (e, s1) ← parsePrimary fuel s
      parseCallLoop fuel s1 e

/-- The call/index/member loop of `parseCall` (member access via `.` builds
a `BinaryExpression` whose right side is `parseIdentifier()`, i.e. the just
consumed dot token). -/
def parseCallLoop : Nat → PState → LNode → ExceptP (LNode × PState)
  | 0, s, _ => .error (.outOfFuel, s)
  | fuel + 1, s, e =>
      let (m, s1) := matchAny s [.LPAREN]
      if m then do
        let (e2, s2) ← finishCall fuel s1 e
        parseCallLoop fuel s2 e2
      else
        let (m2, s2) := matchAny s [.LBRACKET]
        if m2 then do
          let (idx, s3) ← parseExpression fuel s2
          let (_, s4) ← consume s3 .RBRACKET "Expected ']' after index"
          parseCallLoop fuel s4 (.BinaryExpression e (js "[]") idx)
        else
          let (m3, s3) := matchAny s [.DOT]
          if m3 then do
            let (name, s4) ← parseIdentifier s3
            parseCallLoop fuel s4 (.BinaryExpression e (js ".") name)
          else .ok (e, s)

/-- `finishCall`. -/
def finishCall : Nat → PState → LNode → ExceptP (LNode × PState)
  | 0, s, _ => .error (.outOfFuel, s)
  | fuel + 1, s, callee => do
      let (args, s1) ←
        if check s .RPAREN then (.ok ([], s) : ExceptP (List LNode × PState))
        else parseExpressionList fuel s
      let (_, s2) ← consume s1 .RPAREN "Expected ')' after arguments"
      let vm := isVMCall callee args
      .ok (.CallExpression callee args vm
            (if vm then some (detectVMOperation callee) else none), s2)

/-- `parsePrimary`. -/
def parsePrimary : Nat → PState → ExceptP (LNode × PState)
  | 0, s => .error (.outOfFuel, s)
  | fuel + 1, s =>
      let (m, s1) := matchAny s [.TRUE]
      if m then .ok (.Literal (.boolean true) "boolean", s1)
      else
        let (m, s1) := matchAny s [.FALSE]
        if m then .ok (.Literal (.boolean false) "boolean", s1)
        else
          let (m, s1) := matchAny s [.NIL]
          if m then .ok (.Literal .nullV "nil", s1)
          else
            let (m, s1) := matchAny s [.NUMBER]
            if m then do
              let (t, _) ← getPrev s1
              .ok (.Literal (.num (jsParseFloat t.value)) "number", s1)
            else
              let (m, s1) := matchAny s [.STRING]
              if m then do
                let (t, _) ← getPrev s1
                .ok (.Literal (.str ((t.value.drop 1).dropLast)) "string", s1)
              else
                let (m, s1) := matchAny s [.ENCRYPTED_STRING]
                if m then do
                  let (t, _) ← getPrev s1
                  .ok (.EncryptedString t.value "luraph", s1)
                else
                  let (m, s1) := matchAny s [.IDENTIFIER, .OBFUSCATED_NAME]
                  if m then parseIdentifier s1
                  else
                    let (m, s1) := matchAny s [.LPAREN]
                    if m then do
                      let (expr, s2) ← parseExpression fuel s1
                      let (_, s3) ← consume s2 .RPAREN "Expected ')' after expression"
                      .ok (expr, s3)
                    else
                      let (m, s1) := matchAny s [.LBRACE]
                      if m then parseTableConstructor fuel s1
                      else .error (.err "Unexpected token" (gotStr s), s)

/-- `parseTableConstructor` (entered after the `{` was consumed). -/
def parseTableConstructor : Nat → PState → ExceptP (LNode × PState)
  | 0, s => .error (.outOfFuel, s)
  | fuel + 1, s => do
      let (fields, s1) ←
        if check s .RBRACE then (.ok ([], s) : ExceptP (List LNode × PState))
        else do
          let (f0, s1) ← parseTableField fuel s
          parseTableFieldsLoop fuel s1 [f0]
      let (_, s2) ← consume s1 .RBRACE "Expected '\x7d' after table constructor"
      .ok (.TableConstructor fields (isConstTableFields fields), s2)

/-- The field loop of `parseTableConstructor`. -/
def parseTableFieldsLoop : Nat → PState → List LNode → ExceptP (List LNode × PState)
  | 0, s, _ => .error (.outOfFuel, s)
  | fuel + 1, s, acc =>
      let (m, s1) := matchAny s [.COMMA, .SEMICOLON]
      if m then
        if check s1 .RBRACE then .ok (acc, s1)
        else do
          let (f, s2) ← parseTableField fuel s1
          parseTableFieldsLoop fuel s2 (acc ++ [f])
      else .ok (acc, s)

/-- `parseTableField`. -/
def parseTableField : Nat → PState → ExceptP (LNode × PState)
  | 0, s => .error (.outOfFuel, s)
  | fuel + 1, s =>
      let (m, s1) := matchAny s [.LBRACKET]
      if m then do
        let (key, s2) ← parseExpression fuel s1
        let (_, s3) ← consume s2 .RBRACKET "Expected ']' after table key"
        let (_, s4) ← consume s3 .ASSIGN "Expected '=' after table key"
        let (value, s5) ← parseExpression fuel s4
        .ok (.TableField (some key) value "record", s5)
      else do
        let (expr, s1) ← parseExpression fuel s
        let (m2, s2) := matchAny s1 [.ASSIGN]
        if m2 then do
          let (value, s3) ← parseExpression fuel s2
          .ok (.TableField (some expr) value "record", s3)
        else .ok (.TableField none expr "list", s2)

/-- `parseExpressionList`. -/
def parseExpressionList : Nat → PState → ExceptP (List LNode × PState)
  | 0, s => .error (.outOfFuel, s)
  | fuel + 1, s => do
      let (e0, s1) ← parseExpression fuel s
      parseExprListLoop fuel s1 [e0]

/-- The comma loop of `parseExpressionList`. -/
def parseExprListLoop : Nat → PState → List LNode → ExceptP (List LNode × PState)
  | 0, s, _ => .error (.outOfFuel, s)
  | fuel + 1, s, acc =>
      let (m, s1) := matchAny s [.COMMA]
      if m then do
        let (e, s2) ← parseExpression fuel s1
        parseExprListLoop fuel s2 (acc ++ [e])
      else .ok (acc, s)

end

/-- The statement loop of `parse()`. -/
def parseGo : Nat → PState → List LNode → Except (PErr × PState) (List LNode × PState)
  | 0, s, _ => .error (.outOfFuel, s)
  | fuel + 1, s, acc =>
      if pAtEnd s then .ok (acc, s)
      else
        match parseStatement fuel s with
        | .error e => .error e
        | .ok (stOpt, s1) =>
            parseGo fuel s1 (match stOpt with | some st => acc ++ [st] | none => acc)

/-- Fuel that covers the runs of interest with room to spare; a run that
does not report `outOfFuel` is fuel-complete and agrees with the JavaScript
execution. -/
def parseFuel (tokens : List Token) : Nat :=
  (tokens.length + 2) * (tokens.length + 2) * 8

/-- `LuaParser.parse` (the constructor filters whitespace and comment
tokens; `parse` then loops `parseStatement` and wraps the statements in a
`BlockStatement`). -/
def parse (tokens : List Token) : Except (PErr × PState) LNode :=
  let toks := tokens.filter fun t => t.type ≠ .WHITESPACE ∧ t.type ≠ .COMMENT
  match parseGo (parseFuel toks) ⟨toks, 0⟩ [] with
  | .ok (stmts, _) => .ok (.BlockStatement stmts)
  | .error e => .error e

end LuaParser

/-! ### `LuraphVM` (the enhanced variant whose `isValidLuraphScript` the
orchestrator gate uses)

`astToString` and `checkNode` walk `node.children` and, for
`BlockStatement`, `node.statements`.  Parser-built nodes carry no
`children` array, so on parser output the only recursion that fires is
through `BlockStatement.statements`; the embedding is specialised to that
AST. -/

namespace LuraphVM

open LuaParser (LNode LuaVal)

/-- Decimal digits of a natural number. -/
def natToDec (n : Nat) : JSStr :=
  (Nat.toDigits 10 n).map Char.toNat

/-- Decimal representation of an integer. -/
def intToDec (n : Int) : JSStr :=
  if n < 0 then 45 :: natToDec n.natAbs else natToDec n.natAbs

/-- `Number.prototype.toString` on a literal value as the embedding prints
it: exact for integers and for fractions with up to 20 decimal digits
(beyond that JavaScript switches to shortest-round-trip/exponent forms,
which no claim exercises). -/
def ratToString (q : ℚ) : JSStr :=
  if q.den = 1 then intToDec q.num
  else
    match (List.range 21).find? (fun k => (q * 10 ^ k).den = 1) with
    | some k =>
        let scaled := (q * 10 ^ k).num.natAbs
        let sign : JSStr := if q.num < 0 then [45] else []
        let digits := natToDec scaled
        let digits := if digits.length ≤ k then List.replicate (k + 1 - digits.length) 48 ++ digits else digits
        sign ++ digits.take (digits.length - k) ++ [46] ++ digits.drop (digits.length - k)
    | none => intToDec q.num

/-- `value?.toString() || ''` in `astToString`'s `Literal` branch
(`null` has no `toString`, collapsing to the empty string). -/
def luaValToString : LuaVal → JSStr
  | .str s => s
  | .num q => ratToString q
  | .boolean b => if b then js "true" else js "false"
  | .nullV => []

/-- `LuraphVM.astToString` (the enhanced variant): concatenates per-node
strings; only `BlockStatement` recurses (no node has `children`). -/
def astToString (n : LNode) : JSStr :=
  match n with
  | .Literal v _ => luaValToString v
  | .Identifier name _ => name
  | .FunctionDeclaration name _ _ _ _ _ => js "function " ++ name.idName
  | .AssignmentExpression _ _ _ => js "assignment"
  | .CallExpression callee _ _ _ => js "call " ++ callee.idName
  | .BinaryExpression _ op _ => js "binary " ++ op
  | .BlockStatement stmts => (stmts.attach.map fun q => astToString q.1).flatten
  | _ => []
termination_by n
decreasing_by
  have := List.sizeOf_lt_of_mem q.2
  simp only [LNode.BlockStatement.sizeOf_spec]
  omega

/-- Case-insensitive substring test (`/…/i`). -/
def hasSubCI (pat s : JSStr) : Bool :=
  LuraphDecryptor.hasSub (LuaLexer.lowerAscii pat) (LuaLexer.lowerAscii s)

/-- `/0x[0-9a-fA-F]+/`: `0x` followed by at least one hex digit. -/
def hasHexLiteral (s : JSStr) : Bool :=
  LuaParser.hasSubFollowed (js "0x") (fun d => (LuraphDecryptor.hexDigit d).isSome) s

/-- `\s+` then `[a-zA-Z_]` then at least `k` word characters, after a
keyword — the shape of `/local\s+[a-zA-Z_][a-zA-Z0-9_]{20,}/` and
`/function\s+[a-zA-Z_][a-zA-Z0-9_]{15,}/`. -/
def wsNameRunAfter (kw : JSStr) (k : Nat) : JSStr → Bool
  | [] => false
  | c :: rest =>
      (kw.isPrefixOf (c :: rest) &&
        (let after := (c :: rest).drop kw.length
         let ws := after.takeWhile LuaLexer.isWsChar
         let after2 := after.drop ws.length
         !ws.isEmpty &&
           (match after2 with
            | d :: rest2 =>
                (LuaLexer.isAlphaChar d || d == 95) &&
                  decide (k ≤ (rest2.takeWhile fun e => LuaLexer.isAlphaNumChar e || e == 95).length)
            | [] => false))) ||
      wsNameRunAfter kw k rest

/-- `/R\[.*?\]/`-style test: `pre` then a `]` later on the same line. -/
def bracketAccess (pre : JSStr) : JSStr → Bool
  | [] => false
  | c :: rest =>
      (pre.isPrefixOf (c :: rest) &&
        (let after := (c :: rest).drop pre.length
         (after.takeWhile fun d => !LuraphDecryptor.isLineTerm d).contains 93)) ||
      bracketAccess pre rest

/-- The 13 `luraphPatterns` tests of `isValidLuraphScript`, in source
order. -/
def luraphPatternTests (codeString : JSStr) : List Bool :=
  [hasSubCI (js "luraph") codeString,
   hasSubCI (js "protected using Luraph") codeString,
   hasSubCI (js "lura.ph") codeString,
   hasSubCI (js "obfuscator") codeString,
   hasHexLiteral codeString,
   wsNameRunAfter (js "local") 20 codeString,
   wsNameRunAfter (js "function") 15 codeString,
   bracketAccess (js "R[") codeString,
   bracketAccess (js "K[") codeString,
   LuaParser.hasSubFollowed (js "handler_") LuaLexer.isDigitChar (LuaLexer.lowerAscii codeString),
   LuaParser.hasSubFollowed (js "vm_") (fun d => LuaLexer.isAlphaNumChar d || d == 95) (LuaLexer.lowerAscii codeString),
   hasSubCI (js "encrypted") codeString,
   hasSubCI (js "decrypt") codeString]

/-- `patternMatches` of `isValidLuraphScript`. -/
def patternMatches (codeString : JSStr) : Nat :=
  ((luraphPatternTests codeString).filter id).length

/-- `checkNode`'s `hasLongIdentifiers` flag (identifier name longer than
15; recursion only through `BlockStatement.statements`). -/
def gateHasLongIdentifiers (n : LNode) : Bool :=
  match n with
  | .Identifier name _ => decide (name.length > 15)
  | .BlockStatement stmts => stmts.attach.any fun q => gateHasLongIdentifiers q.1
  | _ => false
termination_by n
decreasing_by
  have := List.sizeOf_lt_of_mem q.2
  simp only [LNode.BlockStatement.sizeOf_spec]
  omega

/-- `checkNode`'s `hasComplexExpressions` flag (any binary expression seen
by the walk). -/
def gateHasComplexExpressions (n : LNode) : Bool :=
  match n with
  | .BinaryExpression _ _ _ => true
  | .BlockStatement stmts => stmts.attach.any fun q => gateHasComplexExpressions q.1
  | _ => false
termination_by n
decreasing_by
  have := List.sizeOf_lt_of_mem q.2
  simp only [LNode.BlockStatement.sizeOf_spec]
  omega

/-- `checkNode`'s `hasObfuscatedStructure` flag (function declaration whose
name is longer than 10). -/
def gateHasObfuscatedStructure (n : LNode) : Bool :=
  match n with
  | .FunctionDeclaration name _ _ _ _ _ => decide (name.idName.length > 10)
  | .BlockStatement stmts => stmts.attach.any fun q => gateHasObfuscatedStructure q.1
  | _ => false
termination_by n
decreasing_by
  have := List.sizeOf_lt_of_mem q.2
  simp only [LNode.BlockStatement.sizeOf_spec]
  omega

/-- `LuraphVM.isValidLuraphScript` (the enhanced variant, the gate the
claim cites): at least two of the 13 string patterns, or any of the three
structural indicators. -/
def isValidLuraphScript (ast : LNode) : Bool :=
  let codeString := astToString ast
  let hasLuraphPatterns := decide (patternMatches codeString ≥ 2)
  let hasObfuscationIndicators :=
    gateHasObfuscatedStructure ast || gateHasComplexExpressions ast ||
      gateHasLongIdentifiers ast
  hasLuraphPatterns || hasObfuscationIndicators

/-- Deep existence of a node satisfying `p`, over every child field — used
only to state the spec's condition (c), which quantifies over the whole
AST. -/
def hasNodeDeep (p : LNode → Bool) (n : LNode) : Bool :=
  p n ||
    (match n with
     | .Literal _ _ => false
     | .Identifier _ _ => false
     | .FunctionDeclaration name params body _ _ _ =>
         hasNodeDeep p name || (params.attach.any fun q => hasNodeDeep p q.1) ||
           hasNodeDeep p body
     | .CallExpression callee args _ _ =>
         hasNodeDeep p callee || args.attach.any fun q => hasNodeDeep p q.1
     | .BlockStatement stmts => stmts.attach.any fun q => hasNodeDeep p q.1
     | .AssignmentExpression left right _ =>
         (left.attach.any fun q => hasNodeDeep p q.1) ||
           right.attach.any fun q => hasNodeDeep p q.1
     | .TableConstructor fields _ => fields.attach.any fun q => hasNodeDeep p q.1
     | .TableField key value _ =>
         (match key with
          | some k => hasNodeDeep p k
          | none => false) || hasNodeDeep p value
     | .IfStatement c t e =>
         hasNodeDeep p c || hasNodeDeep p t ||
           (match e with
            | some a => hasNodeDeep p a
            | none => false)
     | .ForStatement i c u b _ =>
         hasNodeDeep p i || hasNodeDeep p c || hasNodeDeep p u || hasNodeDeep p b
     | .WhileStatement c b => hasNodeDeep p c || hasNodeDeep p b
     | .ReturnStatement args => args.attach.any fun q => hasNodeDeep p q.1
     | .BinaryExpression l _ r => hasNodeDeep p l || hasNodeDeep p r
     | .UnaryExpression _ a => hasNodeDeep p a
     | .EncryptedString _ _ => false)
termination_by n
decreasing_by all_goals first
  | (have hq := List.sizeOf_lt_of_mem q.2; simp_all; omega)
  | (simp_all; omega)
  | simp_all

/-- Modelled from the spec: condition (a) of `looks_like_luraph` — the
source text contains one of the four marker strings, case-insensitively. -/
def specHasMarkerText (source : JSStr) : Bool :=
  hasSubCI (js "luraph") source || hasSubCI (js "lura.ph") source ||
    hasSubCI (js "protected using luraph") source ||
    hasSubCI (js "obfuscator") source

/-- Modelled from the spec: the six obfuscation patterns of condition (b),
read on the source text. -/
def specPatternFlags (source : JSStr) : List Bool :=
  [bracketAccess (js "R[") source,
   bracketAccess (js "K[") source,
   LuaParser.hasSubFollowed (js "handler_") LuaLexer.isDigitChar source,
   LuaParser.hasSubFollowed (js "vm_") (fun d => LuaLexer.isAlphaNumChar d || d == 95) source,
   hasHexLiteral source,
   (match source with
    | c :: rest =>
        ((LuaLexer.isAlphaChar c || c == 95) &&
          decide (15 ≤ (rest.takeWhile fun d => LuaLexer.isAlphaNumChar d || d == 95).length)) ||
        LuaParser.hasLongNameRun rest
    | [] => false)]

/-- Modelled from the spec: condition (b) — at least 2 distinct patterns. -/
def specPatternCount (source : JSStr) : Nat :=
  ((specPatternFlags source).filter id).length

/-- Modelled from the spec: condition (c) — the AST has a `vm_handler`
function and an `EncryptedString` node. -/
def specHasVmHandlerAndEncrypted (ast : LNode) : Bool :=
  hasNodeDeep (fun n =>
    match n with
    | .FunctionDeclaration _ _ _ _ isVM _ => isVM
    | _ => false) ast &&
  hasNodeDeep (fun n =>
    match n with
    | .EncryptedString _ _ => true
    | _ => false) ast

end LuraphVM

/-! ### `SymbolicExecutor.ts`, as exercised by `BytecodeReconstructor.ts`

`executeVMHandler` is only ever called on the mock function built by
`createMockFunctionFromHandler`, whose statements come from
`parseHandlerCode`.  Those statements are plain objects: the inner `left`
node `{ name: 'R' }` carries **no** `type` field, so the executor's
`isRegisterAccess` test `binary.left.type === 'Identifier'` is false on
them.  The node model below keeps that distinction (`plainNamed` vs
`identifier`). -/

namespace SymbolicExecutor

/-- The node shapes reaching the executor from the reconstructor's mocks:
a typed binary node over either a typed identifier or the typeless plain
objects `{ name }` / `{ value }` (`value = none` is `NaN`, from
`parseInt(undefined)`). -/
inductive SENode where
  | binary (op : JSStr) (left : SENode) (right : SENode)
  | identifier (name : JSStr)
  | plainNamed (name : JSStr)
  | plainValued (v : Option Int)
deriving Repr

/-- A mock `AssignmentExpression` statement (`left`/`right` arrays). -/
structure MockAssign where
  left : List SENode
  right : List SENode
deriving Repr

/-- `ExecutionResult` (the `sideEffects` map is never read). -/
structure ExecutionResult where
  opcode : Nat
  operands : List Int
  isComplete : Bool
deriving Repr, DecidableEq

/-- `SymbolicExecutor.isRegisterAccess`: a `BinaryExpression` with operator
`[]` whose left is a node of type `Identifier` named `R` — the mocks'
typeless `{ name: 'R' }` fails the type check. -/
def isRegisterAccess (n : SENode) : Bool :=
  match n with
  | .binary op l _ =>
      op == js "[]" &&
        (match l with
         | .identifier name => name == js "R"
         | _ => false)
  | _ => false

/-- `SymbolicExecutor.isConstantAccess` (same with `K`). -/
def isConstantAccess (n : SENode) : Bool :=
  match n with
  | .binary op l _ =>
      op == js "[]" &&
        (match l with
         | .identifier name => name == js "K"
         | _ => false)
  | _ => false

/-- `extractRegisterIndex` / `extractConstantIndex`: the literal index of a
typed bracket node, `-1` otherwise (the mocks' right side is a typeless
`{ value }`, which is not a `Literal` node). -/
def extractIndex (n : SENode) : Int :=
  match n with
  | .binary _ _ _ => -1
  | _ => -1

/-- `executeAssignment` on a mock statement: the three patterns
(`MOVE`, `LOADK`, arithmetic) all require `isRegisterAccess` on the left
node, which the typeless mock nodes fail, so the result is always `null`. -/
def executeAssignment (a : MockAssign) : Option ExecutionResult :=
  match a.left.head?, a.right.head? with
  | some l, some r =>
      if isRegisterAccess l && isRegisterAccess r then
        some ⟨LuaOpcode.MOVE, [extractIndex l, extractIndex r, 0], true⟩
      else if isRegisterAccess l && isConstantAccess r then
        some ⟨LuaOpcode.LOADK, [extractIndex l, extractIndex r, 0], true⟩
      else none
  | _, _ => none

/-- `executeBlock` over the mock statements (step cap 1000, so at most 1001
statements are examined; the result is the last completed emission). -/
def executeBlock (stmts : List MockAssign) : ExecutionResult :=
  let results := (stmts.take 1001).filterMap executeAssignment
  match results.getLast? with
  | some r =>
      { opcode := r.opcode
        operands := [r.operands.getD 0 0, r.operands.getD 1 0, r.operands.getD 2 0]
        isComplete := true }
  | none => { opcode := LuaOpcode.MOVE, operands := [0, 0, 0], isComplete := false }

end SymbolicExecutor

/-! ### `BytecodeReconstructor.ts` -/

namespace BytecodeReconstructor

open LuraphDecryptor (EncryptionInfo DecryptionResult decryptString)
open SymbolicExecutor

/-- `LuraphVMHandler` (`types/VMInstructions.ts`). -/
structure LuraphVMHandler where
  index : Int
  opcode : Nat
  handler : JSStr
  encrypted : Bool
  decrypted : Option JSStr := none
deriving Repr

/-- `ReconstructionContext`; `handlers` is the `Map` as its entry list in
insertion order (`vmVersion` and `instructionMapping` are never read by the
reconstruction and are omitted). -/
structure ReconstructionContext where
  handlers : List (Int × LuraphVMHandler)
  constants : List VMConstant
  encryptionInfo : EncryptionInfo
deriving Repr

/-- `ReconstructionResult.statistics`. -/
structure RecStats where
  handlersProcessed : Nat
  instructionsReconstructed : Nat
  constantsDecrypted : Nat
  errors : List String
deriving Repr, DecidableEq

/-- `ReconstructionResult`. -/
structure ReconstructionResult where
  success : Bool
  proto : VMProto
  statistics : RecStats
deriving Repr

/-- Greedy digit-run consumption for the handler-code regexes: `R\[(\d+)\]`
or `K\[(\d+)\]` at the start of `s`, returning the captured number and the
rest. -/
def matchIdx (base : JSStr) (s : JSStr) : Option (Nat × JSStr) :=
  if base.isPrefixOf s then
    let rest := s.drop base.length
    let digits := rest.takeWhile LuaLexer.isDigitChar
    if digits.isEmpty then none
    else
      match rest.drop digits.length with
      | 93 :: rest2 =>
          some (digits.foldl (fun acc d => 10 * acc + (d - 48)) 0, rest2)
      | _ => none
  else none

/-- `\s*`. -/
def wsStar (s : JSStr) : JSStr := s.drop (s.takeWhile LuaLexer.isWsChar).length

/-- `R\[(\d+)\]\s*=\s*<base>\[(\d+)\]` anchored at the start of `s`
(used with `R[` for `MOVE` and `K[` for `LOADK`). -/
def assignPairAt (base : JSStr) (s : JSStr) : Option (Nat × Nat × JSStr) := do
  let (d1, r1) ← matchIdx (js "R[") s
  match wsStar r1 with
  | 61 :: r2 => do
      let (d2, r3) ← matchIdx base (wsStar r2)
      some (d1, d2, r3)
  | _ => none

/-- `R\[(\d+)\]\s*=\s*R\[(\d+)\]\s*<op>\s*R\[(\d+)\]` anchored at the start
(used with `+` for `ADD` and `-` for `SUB`). -/
def arithTripleAt (opChar : Nat) (s : JSStr) : Option (Nat × Nat × Nat) := do
  let (d1, d2, r) ← assignPairAt (js "R[") s
  match wsStar r with
  | c :: r2 =>
      if c = opChar then do
        let (d3, _) ← matchIdx (js "R[") (wsStar r2)
        some (d1, d2, d3)
      else none
  | _ => none

/-- `R\[(\d+)\]\(` anchored at the start. -/
def callPatAt (s : JSStr) : Option Nat := do
  let (d1, r) ← matchIdx (js "R[") s
  match r with
  | 40 :: _ => some d1
  | _ => none

/-- Leftmost-position scan of an anchored matcher (how a non-anchored
JavaScript regex finds its first match). -/
def scanFor {α : Type} (matchAt : JSStr → Option α) : JSStr → Option α
  | [] => matchAt []
  | c :: rest =>
      match matchAt (c :: rest) with
      | some r => some r
      | none => scanFor matchAt rest

/-- The mock statement `createMockFunctionFromHandler`/`parseHandlerCode`
build from the first two capture groups: both sides are bracket nodes over
the typeless `{ name: 'R' }`, with `parseInt` of a missing group being
`NaN` (`none`). -/
def mkMockStmt (m1 m2 : Option Int) : MockAssign :=
  { left := [.binary (js "[]") (.plainNamed (js "R")) (.plainValued m1)]
    right := [.binary (js "[]") (.plainNamed (js "R")) (.plainValued m2)] }

/-- `parseHandlerCode`: the first matching pattern (in source order `MOVE`,
`LOADK`, `ADD`, `SUB`, `CALL`, `RETURN`) contributes one mock statement;
no match contributes none. -/
def parseHandlerCode (handlerCode : JSStr) : List MockAssign :=
  match scanFor (assignPairAt (js "R[")) handlerCode with
  | some (d1, d2, _) => [mkMockStmt (some d1) (some d2)]
  | none =>
    match scanFor (assignPairAt (js "K[")) handlerCode with
    | some (d1, d2, _) => [mkMockStmt (some d1) (some d2)]
    | none =>
      match scanFor (arithTripleAt 43) handlerCode with
      | some (d1, d2, _) => [mkMockStmt (some d1) (some d2)]
      | none =>
        match scanFor (arithTripleAt 45) handlerCode with
        | some (d1, d2, _) => [mkMockStmt (some d1) (some d2)]
        | none =>
          match scanFor callPatAt handlerCode with
          | some d1 => [mkMockStmt (some d1) none]
          | none =>
            if LuraphDecryptor.hasSub (js "return") handlerCode then
              [mkMockStmt none none]
            else []

/-- `reconstructFromPatterns`: the same six regexes with their operand
extractors, falling back to the `MOVE 0 0 0` placeholder. -/
def reconstructFromPatterns (handler : LuraphVMHandler) (handlerCode : JSStr) :
    Option VMInstruction :=
  match scanFor (assignPairAt (js "R[")) handlerCode with
  | some (d1, d2, _) =>
      some { opcode := LuaOpcode.MOVE, a := d1, b := d2, c := 0, line := some handler.index }
  | none =>
    match scanFor (assignPairAt (js "K[")) handlerCode with
    | some (d1, d2, _) =>
        some { opcode := LuaOpcode.LOADK, a := d1, b := d2, c := 0, line := some handler.index }
    | none =>
      match scanFor (arithTripleAt 43) handlerCode with
      | some (d1, d2, d3) =>
          some { opcode := LuaOpcode.ADD, a := d1, b := d2, c := d3, line := some handler.index }
      | none =>
        match scanFor (arithTripleAt 45) handlerCode with
        | some (d1, d2, d3) =>
            some { opcode := LuaOpcode.SUB, a := d1, b := d2, c := d3, line := some handler.index }
        | none =>
          match scanFor callPatAt handlerCode with
          | some d1 =>
              some { opcode := LuaOpcode.CALL, a := d1, b := 1, c := 1, line := some handler.index }
          | none =>
            if LuraphDecryptor.hasSub (js "return") handlerCode then
              some { opcode := LuaOpcode.RETURN, a := 0, b := 1, c := 0, line := some handler.index }
            else
              some { opcode := LuaOpcode.MOVE, a := 0, b := 0, c := 0, line := some handler.index }

/-- `decryptConstants`: string constants are decrypted (keeping the
original on failure); everything else passes through. -/
def decryptConstants (constants : List VMConstant) (info : EncryptionInfo) :
    List VMConstant :=
  constants.mapIdx fun i c =>
    match c.value with
    | .str s =>
        let r := decryptString s info
        if r.success then { value := .str r.decrypted, index := (i : Int) } else c
    | _ => c

/-- `reconstructHandler`: decrypt the handler body if flagged, try symbolic
execution of the mock statements, fall back to the pattern pass.  Nothing
in the body can throw, so the inner catch (which would return `null`) is
dead, as is the outer catch in `reconstructFromVM` that would log into
`statistics.errors`. -/
def reconstructHandler (handler : LuraphVMHandler) (ctx : ReconstructionContext) :
    Option VMInstruction :=
  let handlerCode :=
    if handler.encrypted then
      match handler.decrypted with
      | some d => d
      | none =>
          let r := decryptString handler.handler ctx.encryptionInfo
          if r.success then r.decrypted else handler.handler
    else handler.handler
  let executionResult := executeBlock (parseHandlerCode handlerCode)
  if executionResult.isComplete then
    some { opcode := executionResult.opcode
           a := executionResult.operands.getD 0 0
           b := executionResult.operands.getD 1 0
           c := executionResult.operands.getD 2 0
           line := some handler.index }
  else reconstructFromPatterns handler handlerCode

/-- `calculateMaxStackSize`. -/
def calculateMaxStackSize (instructions : List VMInstruction) : Int :=
  let step := fun (acc : Int × Int) (i : VMInstruction) =>
    let (maxStack, currentStack) := acc
    let currentStack :=
      if i.opcode = LuaOpcode.LOADK ∨ i.opcode = LuaOpcode.LOADBOOL ∨
          i.opcode = LuaOpcode.LOADNIL ∨ i.opcode = LuaOpcode.MOVE then
        max currentStack (i.a + 1)
      else if i.opcode = LuaOpcode.CALL then
        let c1 := if i.b > 0 then max currentStack (i.a + i.b) else currentStack
        if i.c > 0 then max c1 (i.a + i.c - 1) else c1
      else if i.opcode = LuaOpcode.NEWTABLE then max currentStack (i.a + 1)
      else if i.opcode = LuaOpcode.ADD ∨ i.opcode = LuaOpcode.SUB ∨
          i.opcode = LuaOpcode.MUL ∨ i.opcode = LuaOpcode.DIV ∨
          i.opcode = LuaOpcode.MOD ∨ i.opcode = LuaOpcode.POW then
        max currentStack (i.a + 1)
      else currentStack
    (max maxStack currentStack, currentStack)
  max ((instructions.foldl step (0, 0)).1) 2

/-- `createEmptyProto`. -/
def createEmptyProto : VMProto :=
  .mk [] [] [] [] (js "@deobfuscated.lua") 0 0 0 false 2

/-- `isRedundantArithmetic`. -/
def isRedundantArithmetic (current : VMInstruction) (next : Option VMInstruction) : Bool :=
  match next with
  | none => false
  | some nx =>
      (current.opcode == LuaOpcode.ADD || current.opcode == LuaOpcode.SUB ||
        current.opcode == LuaOpcode.MUL || current.opcode == LuaOpcode.DIV) &&
      (nx.opcode == LuaOpcode.ADD || nx.opcode == LuaOpcode.SUB ||
        nx.opcode == LuaOpcode.MUL || nx.opcode == LuaOpcode.DIV) &&
      (current.a == nx.a && current.b == nx.b && current.c == nx.c)

/-- `removeRedundantInstructions`: drop `MOVE a a`, a `LOADK` shadowed by
the next `LOADK` into the same register, and repeated identical arithmetic. -/
def removeRedundantInstructions : List VMInstruction → List VMInstruction
  | [] => []
  | cur :: rest =>
      if cur.opcode = LuaOpcode.MOVE ∧ cur.a = cur.b then
        removeRedundantInstructions rest
      else if cur.opcode = LuaOpcode.LOADK ∧
          (match rest.head? with
           | some nx => nx.opcode == LuaOpcode.LOADK && nx.a == cur.a
           | none => false) = true then
        removeRedundantInstructions rest
      else if isRedundantArithmetic cur rest.head? then
        removeRedundantInstructions rest
      else cur :: removeRedundantInstructions rest

/-- Errors the optimization passes can raise: a `JSON.parse` throw on a
truncated value segment, a `TypeError` from reading `.opcode` of
`undefined` (negative jump target in `removeDeadCode`), or a value whose
JavaScript serialization the embedding does not model (non-integer number
constants, integers beyond 2^53, or fuel exhaustion in the worklist —
see the individual passes). -/
inductive OptErr where
  | jsonThrow
  | typeErr
  | unmodelled
deriving Repr, DecidableEq

/-- The message pushed into `statistics.errors` for an optimization
throw. -/
def OptErr.message : OptErr → String
  | .jsonThrow => "Unexpected token in JSON"
  | .typeErr => "Cannot read properties of undefined"
  | .unmodelled => "unmodelled serialization"

/-- `JSON.stringify` of one character inside a string literal. -/
def jsonEscapeChar (c : Nat) : JSStr :=
  if c = 34 then [92, 34]
  else if c = 92 then [92, 92]
  else if c = 8 then [92, 98]
  else if c = 9 then [92, 116]
  else if c = 10 then [92, 110]
  else if c = 12 then [92, 102]
  else if c = 13 then [92, 114]
  else if c < 32 then
    [92, 117, 48, 48,
     (if c / 16 < 10 then 48 + c / 16 else 87 + c / 16),
     (if c % 16 < 10 then 48 + c % 16 else 87 + c % 16)]
  else [c]

/-- `JSON.stringify(constant.value)`: exact for `null`, booleans, strings
and integers within the double-exact range; `none` marks a value whose
JavaScript printing (shortest-round-trip doubles) is not modelled. -/
def jsonStringify : VMConstVal → Option JSStr
  | .nil => some (js "null")
  | .boolean b => some (if b then js "true" else js "false")
  | .numInt n =>
      if n.natAbs ≤ 2 ^ 53 then some (LuraphVM.intToDec n) else none
  | .numFlt _ => none
  | .str s => some (34 :: (s.flatMap jsonEscapeChar ++ [34]))

/-- The dedup key `` `${constant.type}:${JSON.stringify(constant.value)}` ``. -/
def constKey (c : VMConstant) : Option JSStr :=
  (jsonStringify c.value).map fun j => js c.value.typeName ++ [58] ++ j

/-- `String.prototype.split(':')`. -/
def splitColon : JSStr → List JSStr
  | [] => [[]]
  | c :: rest =>
      let segs := splitColon rest
      if c = 58 then [] :: segs
      else
        match segs with
        | s :: ss => (c :: s) :: ss
        | [] => [[c]]

/-- `JSON.parse` of a value segment, inverse of `jsonStringify` where it is
defined; `none` is a parse throw. -/
def jsonParse (v : JSStr) : Option VMConstVal :=
  if v = js "null" then some .nil
  else if v = js "true" then some (.boolean true)
  else if v = js "false" then some (.boolean false)
  else
    match v with
    | 34 :: rest => (jsonUnescape rest).map .str
    | _ => none
where
  /-- Unescape the body of a JSON string literal up to its closing quote. -/
  jsonUnescape : JSStr → Option JSStr
    | [34] => some []
    | 92 :: e :: rest =>
        (jsonUnescape rest).bind fun tail =>
          if e = 34 then some (34 :: tail)
          else if e = 92 then some (92 :: tail)
          else if e = 98 then some (8 :: tail)
          else if e = 116 then some (9 :: tail)
          else if e = 110 then some (10 :: tail)
          else if e = 102 then some (12 :: tail)
          else if e = 114 then some (13 :: tail)
          else none
    | 117 :: rest => -- a `\u00XX` escape: the `u` is consumed by the `92` case
        match rest with
        | 48 :: 48 :: h1 :: h2 :: rest2 =>
            match LuraphDecryptor.hexDigit h1, LuraphDecryptor.hexDigit h2 with
            | some v1, some v2 => (jsonUnescape rest2).map fun tail => (16 * v1 + v2) :: tail
            | _, _ => none
        | _ => none
    | c :: rest =>
        if c = 34 then none
        else (jsonUnescape rest).map fun tail => c :: tail
    | [] => none

/-- `parseFloat` on the rebuilt `number` segment; `none` marks an input the
embedding does not model (never produced by `jsonStringify`). -/
def parseDecInt (s : JSStr) : Option Int :=
  match s with
  | 45 :: rest =>
      if ¬rest.isEmpty ∧ rest.all LuaLexer.isDigitChar then
        some (-(rest.foldl (fun acc d => 10 * acc + ((d : Int) - 48)) 0))
      else none
  | _ =>
      if ¬s.isEmpty ∧ s.all LuaLexer.isDigitChar then
        some (s.foldl (fun acc d => 10 * acc + ((d : Int) - 48)) 0)
      else none

/-- The first `forEach` of `optimizeConstantLoading`: the insertion-ordered
key list of `uniqueConstants` and, per old index, the mapped new index. -/
def buildMaps (keys : List JSStr) : List JSStr × List Nat :=
  keys.foldl
    (fun (acc : List JSStr × List Nat) key =>
      match acc.1.indexOf? key with
      | some j => (acc.1, acc.2 ++ [j])
      | none => (acc.1 ++ [key], acc.2 ++ [acc.1.length]))
    ([], [])

/-- `constantMapping.get(instruction.bx) || instruction.bx`: a hit is used
only when it is non-zero (`0` is falsy), otherwise — including a miss —
the old `bx` is kept. -/
def newBx (mapping : List Nat) (bx : Int) : Int :=
  match (if 0 ≤ bx then mapping.get? bx.toNat else none) with
  | some v => if v ≠ 0 then (v : Int) else bx
  | none => bx

/-- The rebuild step of `optimizeConstantLoading`:
`const [type, value] = key.split(':')`, then `parseFloat` for numbers and
`JSON.parse` otherwise. -/
def rebuildConstant (key : JSStr) (idx : Nat) : Except OptErr VMConstant :=
  let segs := splitColon key
  let typeSeg := segs.getD 0 []
  let valueSeg := segs.getD 1 []
  if typeSeg = js "number" then
    match parseDecInt valueSeg with
    | some n => .ok { value := .numInt n, index := (idx : Int) }
    | none => .error .unmodelled
  else
    match jsonParse valueSeg with
    | some v => .ok { value := v, index := (idx : Int) }
    | none => .error .jsonThrow

/-- Index-aware rebuild over the key list. -/
def rebuildAll (keys : List JSStr) (idx : Nat) : Except OptErr (List VMConstant) :=
  match keys with
  | [] => .ok []
  | k :: rest => do
      let c ← rebuildConstant k idx
      let cs ← rebuildAll rest (idx + 1)
      .ok (c :: cs)

/-- `BytecodeReconstructor.optimizeConstantLoading`: dedup constants by
`type:JSON` key, remap `LOADK.bx` through the (falsy-guarded) mapping, and
rebuild the constant array by re-parsing the keys. -/
def optimizeConstantLoading (proto : VMProto) : Except OptErr VMProto := do
  let keys ← proto.constants.foldr
    (fun c acc => do
      let ks ← acc
      match constKey c with
      | some k => .ok (k :: ks)
      | none => .error (.unmodelled : OptErr))
    (.ok ([] : List JSStr))
  let (uniq, mapping) := buildMaps keys
  let instrs := proto.instructions.map fun i =>
    if i.opcode = LuaOpcode.LOADK ∧ i.bx.isSome then
      { i with bx := some (newBx mapping (i.bx.getD 0)) }
    else i
  let consts ← rebuildAll uniq 0
  .ok (.mk instrs consts proto.upvalues proto.protos proto.source
        proto.lineDefined proto.lastLineDefined proto.numParams proto.isVararg
        proto.maxStackSize)

/-- One worklist step of `removeDeadCode` (`worklist.pop()` takes from the
end).  A negative pc reads `instructions[pc] = undefined` and throws. -/
def deadCodeLoop (instructions : List VMInstruction) :
    Nat → List Int → List Int → Except OptErr (List Int)
  | 0, _, _ => .error .unmodelled
  | _ + 1, reachable, [] => .ok reachable
  | fuel + 1, reachable, worklist =>
      match worklist.getLast? with
      | none => .ok reachable
      | some pc =>
          let rest := worklist.dropLast
          if reachable.contains pc ∨ pc ≥ (instructions.length : Int) then
            deadCodeLoop instructions fuel reachable rest
          else if pc < 0 then .error .typeErr
          else
            let reachable := reachable ++ [pc]
            match instructions.get? pc.toNat with
            | none => .error .typeErr
            | some instruction =>
                if instruction.opcode = LuaOpcode.JMP then
                  match instruction.sbx with
                  | some sbx => deadCodeLoop instructions fuel reachable (rest ++ [pc + 1 + sbx])
                  | none => deadCodeLoop instructions fuel reachable rest
                else if instruction.opcode = LuaOpcode.RETURN then
                  deadCodeLoop instructions fuel reachable rest
                else deadCodeLoop instructions fuel reachable (rest ++ [pc + 1])

/-- `BytecodeReconstructor.removeDeadCode`: forward reachability from pc 0,
then filter.  Every pop either retires a worklist entry or marks a new pc
reachable while pushing at most one entry, so at most
`instructions.length + 1` pops occur and the fuel bound is never reached. -/
def removeDeadCode (proto : VMProto) : Except OptErr VMProto := do
  let reachable ← deadCodeLoop proto.instructions
    (2 * proto.instructions.length + 4) [] [0]
  let instrs := ((proto.instructions.zip (List.range proto.instructions.length)).filter
    (fun p => reachable.contains (p.2 : Int))).map (·.1)
  .ok (.mk instrs proto.constants proto.upvalues proto.protos proto.source
        proto.lineDefined proto.lastLineDefined proto.numParams proto.isVararg
        proto.maxStackSize)

/-- `optimizeRegisterUsage`: `Math.max(...usedRegisters, 0) + 1` floors the
stack size. -/
def optimizeRegisterUsage (proto : VMProto) : VMProto :=
  let used := proto.instructions.foldl
    (fun (acc : List Int) i =>
      let acc := acc ++ [i.a]
      let acc := if i.b < 256 then acc ++ [i.b] else acc
      if i.c < 256 then acc ++ [i.c] else acc)
    []
  let maxUsed := used.foldl max 0
  .mk proto.instructions proto.constants proto.upvalues proto.protos proto.source
    proto.lineDefined proto.lastLineDefined proto.numParams proto.isVararg
    (max (maxUsed + 1) proto.maxStackSize)

/-- `optimizeReconstructedBytecode`, in pass order. -/
def optimizeReconstructedBytecode (proto : VMProto) : Except OptErr VMProto := do
  let p1 := VMProto.mk (removeRedundantInstructions proto.instructions)
    proto.constants proto.upvalues proto.protos proto.source proto.lineDefined
    proto.lastLineDefined proto.numParams proto.isVararg proto.maxStackSize
  let p2 ← optimizeConstantLoading p1
  let p3 ← removeDeadCode p2
  .ok (optimizeRegisterUsage p3)

/-- `BytecodeReconstructor.reconstructFromVM`: decrypt constants, process
handlers in ascending index order, build and optimize the proto.  The
per-handler loop cannot throw (`reconstructHandler` swallows everything),
so `statistics.errors` only ever receives the message of an optimization
throw, via the outer catch. -/
def reconstructFromVM (ctx : ReconstructionContext) : ReconstructionResult :=
  let decryptedConstants := decryptConstants ctx.constants ctx.encryptionInfo
  let handlerArray := ctx.handlers.mergeSort fun a b => a.1 ≤ b.1
  let step := fun (acc : List VMInstruction × RecStats) (entry : Int × LuraphVMHandler) =>
    let (instructions, stats) := acc
    match reconstructHandler entry.2 ctx with
    | some instr =>
        (instructions ++ [instr],
         { stats with
            instructionsReconstructed := stats.instructionsReconstructed + 1
            handlersProcessed := stats.handlersProcessed + 1 })
    | none =>
        (instructions, { stats with handlersProcessed := stats.handlersProcessed + 1 })
  let (instructions, stats) := handlerArray.foldl step
    ([], { handlersProcessed := 0, instructionsReconstructed := 0
           constantsDecrypted := decryptedConstants.length, errors := [] })
  let proto := VMProto.mk instructions decryptedConstants [] []
    (js "@deobfuscated.lua") 0 instructions.length 0 false
    (calculateMaxStackSize instructions)
  match optimizeReconstructedBytecode proto with
  | .ok proto2 => { success := true, proto := proto2, statistics := stats }
  | .error e =>
      { success := false
        proto := createEmptyProto
        statistics := { stats with errors := stats.errors ++ [e.message] } }

end BytecodeReconstructor

/-! ### Remaining spec-side definitions used by the claims -/

namespace LuraphDecryptor

/-- Modelled from the spec (claim C7): the Lua 5.3 reserved words. -/
def specReservedWords : List JSStr :=
  [js "and", js "break", js "do", js "else", js "elseif", js "end",
   js "false", js "for", js "function", js "goto", js "if", js "in",
   js "local", js "nil", js "not", js "or", js "repeat", js "return",
   js "then", js "true", js "until", js "while"]

/-- Modelled from the spec (claim C7): the single- and two-character
operators of §4.L. -/
def specOperators : List JSStr :=
  [js "==", js "~=", js "<=", js ">=", js "..", js "::",
   js "+", js "-", js "*", js "/", js "%", js "^", js "#",
   js "<", js ">", js "="]

/-- Modelled from the spec (claim C7): the claimed scoring function —
10 per reserved-word occurrence, 2 per operator occurrence, the three
bonuses, minus 5 per non-printable character. -/
def specScoreLuaCode (code : JSStr) : Int :=
  10 * ((specReservedWords.map fun kw => (countWord kw code : Int)).sum) +
  2 * ((specOperators.map fun op => (countLit op code : Int)).sum) +
  (if hasSub (js "function") code && hasSub (js "end") code then 20 else 0) +
  (if hasSub (js "local") code then 15 else 0) +
  (if hasSub (js "print") code then 10 else 0) -
  5 * ((code.filter isNonPrintable).length : Int)

end LuraphDecryptor

/-! ### Proofs — decryptor round trips (claim C4) -/

namespace LuraphDecryptor

theorem xor_xor_cancel (c k : Nat) : Nat.xor (Nat.xor c k) k = c := by
  show c ^^^ k ^^^ k = c
  rw [Nat.xor_assoc, Nat.xor_self, Nat.xor_zero]

theorem xor_lt_256 {a b : Nat} (ha : a < 256) (hb : b < 256) :
    Nat.xor a b < 256 :=
  Nat.xor_lt_two_pow (n := 8) ha hb

theorem xorV1Go_invol (kb : List Nat) :
    ∀ (l : JSStr) (i : Nat), xorV1Go kb (xorV1Go kb l i) i = l
  | [], _ => rfl
  | _ :: rest, i => by
      simp only [xorV1Go, xor_xor_cancel, xorV1Go_invol kb rest (i + 1)]

theorem xorV2Go_invol (kb : List Nat) :
    ∀ (l : JSStr) (i ki : Nat), xorV2Go kb (xorV2Go kb l i ki) i ki = l
  | [], _, _ => rfl
  | _ :: rest, i, ki => by
      simp only [xorV2Go, xor_xor_cancel,
        xorV2Go_invol kb rest (i + 1) ((ki + 1) % kb.length)]

theorem mem_stringToBytes_lt (s : JSStr) : ∀ x ∈ stringToBytes s, x < 256 := by
  intro x hx
  simp only [stringToBytes, List.mem_map] at hx
  obtain ⟨c, _, rfl⟩ := hx
  exact Nat.mod_lt _ (by norm_num)

theorem getD_lt_256 :
    ∀ (l : List Nat), (∀ x ∈ l, x < 256) → ∀ (j : Nat), l.getD j 0 < 256
  | [], _, j => by simp [List.getD]
  | a :: _, h, 0 => by simpa using h a (by simp)
  | _ :: rest, h, j + 1 => by
      simpa using getD_lt_256 rest (fun x hx => h x (by simp [hx])) j

theorem mem_keyedAddGo_lt (key : List Nat) :
    ∀ (l : List Nat) (i : Nat), ∀ x ∈ keyedAddGo key l i, x < 256
  | [], _ => by simp [keyedAddGo]
  | b :: rest, i => by
      intro x hx
      simp only [keyedAddGo, List.mem_cons] at hx
      rcases hx with rfl | hx
      · exact Nat.mod_lt _ (by norm_num)
      · exact mem_keyedAddGo_lt key rest (i + 1) x hx

theorem rotr3_lt (b : Nat) : rotr3 b < 256 := Nat.mod_lt _ (by norm_num)

theorem mem_xorBytesGo_lt (kb : List Nat) (hkb : ∀ x ∈ kb, x < 256) :
    ∀ (l : List Nat) (i : Nat), (∀ x ∈ l, x < 256) →
      ∀ y ∈ xorBytesGo kb l i, y < 256
  | [], _, _ => by simp [xorBytesGo]
  | b :: rest, i, hl => by
      intro y hy
      simp only [xorBytesGo, List.mem_cons] at hy
      rcases hy with rfl | hy
      · exact xor_lt_256 (hl b (by simp)) (getD_lt_256 kb hkb _)
      · exact mem_xorBytesGo_lt kb hkb rest (i + 1)
          (fun x hx => hl x (by simp [hx])) y hy

theorem stringToBytes_eq_self :
    ∀ (l : JSStr), (∀ x ∈ l, x < 256) → stringToBytes l = l
  | [], _ => rfl
  | c :: rest, h => by
      simp only [stringToBytes, List.map_cons, List.cons.injEq]
      constructor
      · exact Nat.mod_eq_of_lt (h c (by simp))
      · simpa [stringToBytes] using
          stringToBytes_eq_self rest (fun x hx => h x (by simp [hx]))

theorem xorBytesGo_invol (kb : List Nat) :
    ∀ (l : List Nat) (i : Nat), xorBytesGo kb (xorBytesGo kb l i) i = l
  | [], _ => rfl
  | _ :: rest, i => by
      simp only [xorBytesGo, xor_xor_cancel, xorBytesGo_invol kb rest (i + 1)]

set_option maxRecDepth 4096 in
theorem rotl3_rotr3_fin : ∀ b : Fin 256,
    ((rotr3 b.val <<< 3).lor (rotr3 b.val >>> 5)) % 256 = b.val := by decide

theorem rotl3_rotr3 (b : Nat) (hb : b < 256) :
    ((rotr3 b <<< 3).lor (rotr3 b >>> 5)) % 256 = b :=
  rotl3_rotr3_fin ⟨b, hb⟩

theorem reverseBitManipulation_rotr3 :
    ∀ (l : List Nat), (∀ x ∈ l, x < 256) →
      reverseBitManipulation (l.map rotr3) = l
  | [], _ => rfl
  | b :: rest, h => by
      simp only [List.map_cons, reverseBitManipulation, List.cons.injEq]
      constructor
      · exact rotl3_rotr3 b (h b (by simp))
      · simpa [reverseBitManipulation] using
          reverseBitManipulation_rotr3 rest (fun x hx => h x (by simp [hx]))

theorem customSub_keyedAdd (key : List Nat) :
    ∀ (l : List Nat) (i : Nat), (∀ x ∈ l, x < 256) →
      customSubstitutionGo key (keyedAddGo key l i) i = l
  | [], _, _ => rfl
  | b :: rest, i, h => by
      simp only [keyedAddGo, customSubstitutionGo, List.cons.injEq]
      constructor
      · have hb : b < 256 := h b (by simp)
        omega
      · exact customSub_keyedAdd key rest (i + 1) (fun x hx => h x (by simp [hx]))

/-- C4: For every plaintext byte string (all character codes below 256) and
every non-empty key, and every method in {xor_v1, xor_v2, luraph_custom},
decrypting the result of the corresponding reference encryption with the
same key and method through `decryptString` succeeds and returns the
original plaintext. -/
theorem C4_decrypt_encrypt_roundtrip (plain key : JSStr) (m : InvMethod)
    (hp : ∀ c ∈ plain, c < 256) (hk : key ≠ []) :
    decryptString (refEncrypt plain key m) ⟨m.name, key, none⟩ =
      { success := true, decrypted := plain, method := m.name, error := none } := by
  cases m with
  | xorV1 =>
      simp only [decryptString, InvMethod.name, refEncrypt, xorEncryptV1,
        String.reduceEq, reduceIte, xorDecryptV1, xorV1Go_invol]
  | xorV2 =>
      simp only [decryptString, InvMethod.name, refEncrypt, xorEncryptV2,
        String.reduceEq, reduceIte, xorDecryptV2, xorV2Go_invol]
  | luraphCustom =>
      have hkb : ∀ x ∈ stringToBytes key, x < 256 := mem_stringToBytes_lt key
      simp only [decryptString, InvMethod.name, refEncrypt, luraphCustomEncrypt,
        String.reduceEq, reduceIte, luraphCustomDecrypt, xorBytes, bytesToString,
        customSubstitution]
      have h2 : ∀ x ∈ (keyedAddGo (stringToBytes key) plain 0).map rotr3, x < 256 := by
        intro x hx
        simp only [List.mem_map] at hx
        obtain ⟨b, _, rfl⟩ := hx
        exact rotr3_lt b
      have h1 : ∀ x ∈ xorBytesGo (stringToBytes key)
          ((keyedAddGo (stringToBytes key) plain 0).map rotr3) 0, x < 256 :=
        mem_xorBytesGo_lt _ hkb _ 0 h2
      rw [stringToBytes_eq_self _ h1, xorBytesGo_invol,
        reverseBitManipulation_rotr3 _ (mem_keyedAddGo_lt _ _ _),
        customSub_keyedAdd _ _ _ hp]

/-- Witness for C4 at a concrete input. -/
theorem C4_decrypt_encrypt_roundtrip_witness :
    decryptString (refEncrypt (js "local x = 1") (js "key") .luraphCustom)
        ⟨InvMethod.luraphCustom.name, js "key", none⟩ =
      { success := true, decrypted := js "local x = 1",
        method := InvMethod.luraphCustom.name, error := none } :=
  C4_decrypt_encrypt_roundtrip (js "local x = 1") (js "key") .luraphCustom
    (by decide) (by decide)

end LuraphDecryptor

/-! ### Proofs — emitter header (claim C5) -/

namespace LuacGenerator

/-- The meaning of `numCheckBits`: with sign 0, biased exponent 1031 and
fraction `229 * 2 ^ 43`, the encoded binary64 value is exactly 370.5. -/
theorem numCheckBits_meaning :
    ((1 : ℚ) + (229 * 2 ^ 43) / 2 ^ 52) * 2 ^ (1031 - 1023) = 370.5 := by
  norm_num

theorem writeHeader_length : writeHeader.length = 33 := by decide

/-- C5: every emitted image starts with the exact header — magic
`0x1B4C7561` as a little-endian u32, version `0x53`, format 0, the data
bytes `19 93 0D 0A 1A 0A`, size bytes `4 8 4 8 8`, `int_check 0x5678` as a
little-endian i64 and `num_check` 370.5 as a little-endian f64 — and
`validateLuac` accepts the image. -/
theorem C5_luac_header_and_validator (p : VMProto) :
    (generateLuac p).take 33 =
      le32 0x1B4C7561 ++ [0x53, 0] ++ LUAC_DATA ++ [4, 8, 4, 8, 8] ++
        le64i 0x5678 ++ le64 numCheckBits ∧
    validateLuac (generateLuac p) = true := by
  constructor
  · show (writeHeader ++ writeFunction p).take 33 = _
    rw [← writeHeader_length, List.take_left]
    rfl
  · show validateLuac (writeHeader ++ writeFunction p) = true
    have hlen : (writeHeader ++ writeFunction p).length = 33 + (writeFunction p).length := by
      rw [List.length_append, writeHeader_length]
    simp only [validateLuac]
    rw [if_neg (by omega)]
    rw [List.getD_append _ _ _ _ (by rw [writeHeader_length]; omega),
      List.getD_append _ _ _ _ (by rw [writeHeader_length]; omega),
      List.getD_append _ _ _ _ (by rw [writeHeader_length]; omega),
      List.getD_append _ _ _ _ (by rw [writeHeader_length]; omega),
      List.getD_append _ _ _ _ (by rw [writeHeader_length]; omega)]
    rfl

end LuacGenerator

namespace LuraphDecryptor

theorem find_congr {α : Type} {p q : α → Bool} :
    ∀ l : List α, (∀ a ∈ l, p a = q a) → l.find? p = l.find? q := by
  intro l
  induction l with
  | nil => intro _; rfl
  | cons a l ih =>
      intro h
      have ha := h a (List.mem_cons_self a l)
      simp only [List.find?, ha]
      cases q a
      · exact ih fun b hb => h b (List.mem_cons_of_mem a hb)
      · rfl

theorem find_cons_pos {α : Type} (p : α → Bool) (a : α) (l : List α)
    (h : p a = true) : (a :: l).find? p = some a := by
  simp [List.find?, h]

theorem find_cons_neg {α : Type} (p : α → Bool) (a : α) (l : List α)
    (h : p a = false) : (a :: l).find? p = l.find? p := by
  simp [List.find?, h]

theorem selectGo_spec (b : DecryptionResult) (rest : List DecryptionResult) :
    (b :: rest).find?
        (fun c => (b :: rest).all fun d =>
          scoreLuaCode d.decrypted ≤ scoreLuaCode c.decrypted) =
      some ((rest.foldl
        (fun acc r =>
          let sc := scoreLuaCode r.decrypted
          if sc > acc.2 then (r, sc) else acc)
        (b, scoreLuaCode b.decrypted)).1) := by
  induction rest generalizing b with
  | nil => simp [List.find?]
  | cons r rs ih =>
      rw [List.foldl_cons]
      by_cases hlt : scoreLuaCode b.decrypted < scoreLuaCode r.decrypted
      · have hstep :
            (let sc := scoreLuaCode r.decrypted
             if sc > (b, scoreLuaCode b.decrypted).2 then (r, sc)
             else (b, scoreLuaCode b.decrypted)) = (r, scoreLuaCode r.decrypted) := by
          simp [hlt]
        rw [hstep, ← ih r]
        rw [find_cons_neg
          (fun c => (b :: r :: rs).all fun d =>
            decide (scoreLuaCode d.decrypted ≤ scoreLuaCode c.decrypted))
          b (r :: rs) (by simp [not_le.mpr hlt])]
        apply find_congr
        intro c _
        simp only [List.all_cons]
        by_cases hrc : scoreLuaCode r.decrypted ≤ scoreLuaCode c.decrypted
        · simp [hrc, le_of_lt (lt_of_lt_of_le hlt hrc)]
        · simp [hrc]
      · have hle : scoreLuaCode r.decrypted ≤ scoreLuaCode b.decrypted := not_lt.mp hlt
        have hstep :
            (let sc := scoreLuaCode r.decrypted
             if sc > (b, scoreLuaCode b.decrypted).2 then (r, sc)
             else (b, scoreLuaCode b.decrypted)) = (b, scoreLuaCode b.decrypted) := by
          simp [hlt]
        rw [hstep, ← ih b]
        have hPbeq :
            ((b :: r :: rs).all fun d =>
              decide (scoreLuaCode d.decrypted ≤ scoreLuaCode b.decrypted)) =
            ((b :: rs).all fun d =>
              decide (scoreLuaCode d.decrypted ≤ scoreLuaCode b.decrypted)) := by
          simp [List.all_cons, hle]
        by_cases hPb : ((b :: rs).all fun d =>
            decide (scoreLuaCode d.decrypted ≤ scoreLuaCode b.decrypted)) = true
        · rw [find_cons_pos
            (fun c => (b :: r :: rs).all fun d =>
              decide (scoreLuaCode d.decrypted ≤ scoreLuaCode c.decrypted))
            b (r :: rs) (by
              show ((b :: r :: rs).all fun d =>
                decide (scoreLuaCode d.decrypted ≤ scoreLuaCode b.decrypted)) = true
              rw [hPbeq]
              exact hPb)]
          rw [find_cons_pos
            (fun c => (b :: rs).all fun d =>
              decide (scoreLuaCode d.decrypted ≤ scoreLuaCode c.decrypted))
            b rs hPb]
        · have hPbf : ((b :: rs).all fun d =>
              decide (scoreLuaCode d.decrypted ≤ scoreLuaCode b.decrypted)) = false := by
            simpa using hPb
          have hPbf2 : ((b :: r :: rs).all fun d =>
              decide (scoreLuaCode d.decrypted ≤ scoreLuaCode b.decrypted)) = false := by
            rw [hPbeq]; exact hPbf
          have hPrf : ((b :: r :: rs).all fun d =>
              decide (scoreLuaCode d.decrypted ≤ scoreLuaCode r.decrypted)) = false := by
            cases hx : ((b :: r :: rs).all fun d =>
                decide (scoreLuaCode d.decrypted ≤ scoreLuaCode r.decrypted)) with
            | false => rfl
            | true =>
                exfalso
                simp only [List.all_cons, Bool.and_eq_true, decide_eq_true_eq] at hx
                have heq : scoreLuaCode r.decrypted = scoreLuaCode b.decrypted :=
                  le_antisymm hle hx.1
                have hgood : ((b :: rs).all fun d =>
                    decide (scoreLuaCode d.decrypted ≤ scoreLuaCode b.decrypted)) = true := by
                  simp only [List.all_cons, Bool.and_eq_true, decide_eq_true_eq]
                  refine ⟨le_refl _, ?_⟩
                  have hall := hx.2.2
                  simp only [List.all_eq_true, decide_eq_true_eq] at hall ⊢
                  intro x hxm
                  exact le_trans (hall x hxm) (le_of_eq heq)
                rw [hgood] at hPbf
                exact Bool.noConfusion hPbf
          rw [find_cons_neg
            (fun c => (b :: r :: rs).all fun d =>
              decide (scoreLuaCode d.decrypted ≤ scoreLuaCode c.decrypted))
            b (r :: rs) hPbf2]
          rw [find_cons_neg
            (fun c => (b :: r :: rs).all fun d =>
              decide (scoreLuaCode d.decrypted ≤ scoreLuaCode c.decrypted))
            r rs hPrf]
          rw [find_cons_neg
            (fun c => (b :: rs).all fun d =>
              decide (scoreLuaCode d.decrypted ≤ scoreLuaCode c.decrypted))
            b rs hPbf]
          apply find_congr
          intro c _
          simp only [List.all_cons]
          by_cases hbc : scoreLuaCode b.decrypted ≤ scoreLuaCode c.decrypted
          · simp [hbc, le_trans hle hbc]
          · simp [hbc]

theorem selectBestResult_eq_firstMaxByScore (l : List DecryptionResult) :
    selectBestResult l = firstMaxByScore l := by
  cases l with
  | nil => rfl
  | cons b rest =>
      simp only [selectBestResult, firstMaxByScore]
      exact (selectGo_spec b rest).symm

end LuraphDecryptor

namespace LuraphDecryptor

/-- C3 (amended): the `auto` branch of `decryptString` attempts exactly four
methods — `xor_v1`, `xor_v2`, `aes_cbc` and `luraph_custom`, not
`aes_cbc_v2` — keeps the successful candidates, and returns the first
candidate whose score is maximal (ties broken in that candidate order); when
no candidate succeeds it returns the failure result with method `auto`. -/
theorem C3_auto_detect_selection (enc key : JSStr) :
    decryptString enc { method := "auto", key := key, iv := none } =
      autoDetectAndDecrypt enc key ∧
    autoDetectAndDecrypt enc key =
      (firstMaxByScore
          ([xorDecryptV1 enc key, xorDecryptV2 enc key, aesDecrypt enc key none,
            luraphCustomDecrypt enc key].filter (·.success))).getD
        { success := false, decrypted := enc, method := "auto",
          error := some "No valid decryption method found" } := by
  constructor
  · simp only [decryptString, String.reduceEq, reduceIte]
  · simp only [autoDetectAndDecrypt, selectBestResult_eq_firstMaxByScore]
    cases hfm : firstMaxByScore
        ([xorDecryptV1 enc key, xorDecryptV2 enc key, aesDecrypt enc key none,
          luraphCustomDecrypt enc key].filter (·.success)) with
    | none => rfl
    | some r => rfl

end LuraphDecryptor

namespace LuraphDecryptor

unseal countLit countWordGo simpleAESDecryptGo in
/-- C3 counterexample: the claim lists five attempted methods, but the code
only tries four.  On the hex ciphertext `6c6713190c4828787d68fdc3ddd3e9e3`
with key `0123456789ABCDEF`, the claimed five-method selection would return
the `aes_cbc_v2` candidate (whose plaintext scores highest); the code's
auto-detection never tries `aes_cbc_v2` and returns the `aes_cbc`
candidate instead. -/
theorem C3_counterexample :
    (autoDetectAndDecrypt (js "6c6713190c4828787d68fdc3ddd3e9e3")
        (js "0123456789ABCDEF")).method = "aes_cbc" ∧
    (claimedAutoDecrypt (js "6c6713190c4828787d68fdc3ddd3e9e3")
        (js "0123456789ABCDEF")).method = "aes_cbc_v2" := by
  constructor <;> decide

end LuraphDecryptor

namespace LuraphDecryptor

set_option maxHeartbeats 1000000 in
/-- C7 (amended): `scoreLuaCode` is 10 per whole-word occurrence of each of
the ten keywords in its `luaKeywords` array (not the full Lua 5.3 reserved
word list), plus 2 per match of each of its seventeen operator patterns,
plus the bonuses 20 (both `function` and `end` present), 15 (`local`
present) and 10 (`print` present), minus 5 per non-printable character. -/
theorem C7_score_formula (code : JSStr) :
    scoreLuaCode code =
      10 * ((luaKeywords.map fun kw => (countWord kw code : Int)).sum) +
      2 * (((luaOperatorCounts code).map fun (n : Nat) => (n : Int)).sum) +
      (if hasSub (js "function") code && hasSub (js "end") code then 20 else 0) +
      (if hasSub (js "local") code then 15 else 0) +
      (if hasSub (js "print") code then 10 else 0) -
      5 * ((code.filter isNonPrintable).length : Int) := by
  simp only [scoreLuaCode, luaKeywords, luaOperatorCounts, List.foldl_cons,
    List.foldl_nil, List.map_cons, List.map_nil, List.sum_cons, List.sum_nil]
  split_ifs <;> omega

unseal countLit countWordGo in
/-- C7 counterexample: the claim scores over all Lua 5.3 reserved words, but
the code's keyword list omits `nil` (among others): the string `nil` scores
0 in the code and 10 under the claimed formula. -/
theorem C7_counterexample :
    scoreLuaCode (js "nil") = 0 ∧ specScoreLuaCode (js "nil") = 10 := by
  constructor <;> decide

end LuraphDecryptor

namespace LuaLexer

/-- C8 (amended): `nextToken` never throws on an unrecognized character —
there is no `Unknown` token kind; when no branch matches, the lexer returns
no token at all (`null`) and consumes exactly one character, so `tokenize`
silently drops the byte and continues. -/
theorem C8_unknown_byte_dropped (input : JSStr) (pos : Nat)
    (h : (nextTokenRes input pos).1 = none) :
    nextTokenRes input pos = (none, 1) := by
  revert h
  unfold nextTokenRes
  dsimp only
  repeat' split
  all_goals intro h
  all_goals first
    | rfl
    | simp at h

/-- C8 witness: the byte `@` matches no lexer branch; `nextToken` yields no
token and consumes one character. -/
theorem C8_unknown_byte_dropped_witness :
    nextTokenRes (js "@") 0 = (none, 1) :=
  C8_unknown_byte_dropped (js "@") 0 (by decide)

unseal wsRun tokenizeGo in
/-- C8 counterexample: the claim promises a synthetic `Unknown` token for an
unrecognized byte, but `TokenType` has no such member and the byte is
dropped: tokenizing the one-character input `@` yields only the final EOF
token. -/
theorem C8_counterexample :
    tokenize (js "@") = [⟨.EOF, [], 1, 2, 1⟩] := by
  decide

end LuaLexer

namespace LuaLexer

theorem advance1_pos_le (input : JSStr) (s : LexPos) (h : s.pos ≤ input.length) :
    (advance1 input s).pos ≤ input.length := by
  have h1 := advance1_pos input s
  split at h1 <;> omega

theorem advanceN_pos_le (input : JSStr) :
    ∀ (k : Nat) (s : LexPos), s.pos ≤ input.length →
      (advanceN input s k).pos ≤ input.length := by
  intro k
  induction k with
  | zero => intro s h; simpa [advanceN] using h
  | succ n ih =>
      intro s h
      simp only [advanceN]
      exact ih _ (advance1_pos_le input s h)

theorem tokenizeGo_spec (input : JSStr) :
    ∀ (n : Nat) (s : LexPos), input.length - s.pos ≤ n → s.pos ≤ input.length →
      tokenizeGo input s ≠ [] ∧
      (∃ t, (tokenizeGo input s).getLast? = some t ∧ t.type = .EOF ∧
        t.position ≤ input.length) ∧
      List.Chain' (fun a b => a.position ≤ b.position) (tokenizeGo input s) ∧
      ∀ t ∈ tokenizeGo input s, s.pos ≤ t.position := by
  intro n
  induction n with
  | zero =>
      intro s hn hs
      have hend : ¬ s.pos < input.length := by omega
      rw [tokenizeGo, dif_neg hend]
      refine ⟨by simp, ⟨mkEOF s, by simp, rfl, by simpa [mkEOF] using hs⟩,
        by simp, ?_⟩
      intro t ht
      simp only [List.mem_singleton] at ht
      subst ht
      simp [mkEOF]
  | succ n ih =>
      intro s hn hs
      by_cases h : s.pos < input.length
      · rw [tokenizeGo, dif_pos h]
        dsimp only
        have hs1ge : s.pos ≤ (advanceN input s (wsRun input s.pos)).pos :=
          advanceN_pos_ge input _ s
        have hs1le : (advanceN input s (wsRun input s.pos)).pos ≤ input.length :=
          advanceN_pos_le input _ s hs
        by_cases h2 : (advanceN input s (wsRun input s.pos)).pos < input.length
        · rw [dif_pos h2]
          have hcons := nextTokenRes_consumes input
            (advanceN input s (wsRun input s.pos)).pos
          have hs2gt : (advanceN input s (wsRun input s.pos)).pos <
              (advanceN input (advanceN input s (wsRun input s.pos))
                (nextTokenRes input (advanceN input s (wsRun input s.pos)).pos).2).pos :=
            advanceN_pos_gt input _ _ hcons h2
          have hs2le : (advanceN input (advanceN input s (wsRun input s.pos))
              (nextTokenRes input (advanceN input s (wsRun input s.pos)).pos).2).pos ≤
              input.length :=
            advanceN_pos_le input _ _ hs1le
          have ihs2 := ih (advanceN input (advanceN input s (wsRun input s.pos))
              (nextTokenRes input (advanceN input s (wsRun input s.pos)).pos).2)
            (by omega) hs2le
          obtain ⟨hne, ⟨tl, htl, htlEOF, htlpos⟩, hchain, hmem⟩ := ihs2
          cases hr1 : (nextTokenRes input (advanceN input s (wsRun input s.pos)).pos).1 with
          | none =>
              exact ⟨hne, ⟨tl, htl, htlEOF, htlpos⟩, hchain,
                fun t ht => le_trans (le_trans hs1ge (le_of_lt hs2gt)) (hmem t ht)⟩
          | some td =>
              refine ⟨by simp, ⟨tl, ?_, htlEOF, htlpos⟩, ?_, ?_⟩
              · obtain ⟨a, l, hrest⟩ : ∃ a l, tokenizeGo input
                    (advanceN input (advanceN input s (wsRun input s.pos))
                      (nextTokenRes input
                        (advanceN input s (wsRun input s.pos)).pos).2) = a :: l := by
                  cases hx : tokenizeGo input
                      (advanceN input (advanceN input s (wsRun input s.pos))
                        (nextTokenRes input
                          (advanceN input s (wsRun input s.pos)).pos).2) with
                  | nil => exact absurd hx hne
                  | cons a l => exact ⟨a, l, rfl⟩
                rw [hrest] at htl
                rw [hrest, List.getLast?_cons_cons]
                exact htl
              · rw [List.chain'_cons']
                refine ⟨?_, hchain⟩
                intro y hy
                have hyin : y ∈ tokenizeGo input
                    (advanceN input (advanceN input s (wsRun input s.pos))
                      (nextTokenRes input (advanceN input s (wsRun input s.pos)).pos).2) :=
                  List.mem_of_mem_head? hy
                have hypos := hmem y hyin
                dsimp only
                omega
              · intro t ht
                rcases List.mem_cons.mp ht with rfl | hmem2
                · dsimp only; exact hs1ge
                · exact le_trans (le_trans hs1ge (le_of_lt hs2gt)) (hmem t hmem2)
        · rw [dif_neg h2]
          refine ⟨by simp, ⟨mkEOF (advanceN input s (wsRun input s.pos)), by simp, rfl,
            by simpa [mkEOF] using hs1le⟩, by simp, ?_⟩
          intro t ht
          simp only [List.mem_singleton] at ht
          subst ht
          simpa [mkEOF] using hs1ge
      · rw [tokenizeGo, dif_neg h]
        refine ⟨by simp, ⟨mkEOF s, by simp, rfl, by simpa [mkEOF] using hs⟩,
          by simp, ?_⟩
        intro t ht
        simp only [List.mem_singleton] at ht
        subst ht
        simp [mkEOF]

/-- C10: for every input, `tokenize` terminates (it is a total function)
and returns a non-empty token list whose final element is an EOF token with
byte offset at most the input length, and the byte offsets of successive
tokens are non-decreasing. -/
theorem C10_tokenize_total (input : JSStr) :
    tokenize input ≠ [] ∧
    (∃ t, (tokenize input).getLast? = some t ∧ t.type = .EOF ∧
      t.position ≤ input.length) ∧
    List.Chain' (fun a b => a.position ≤ b.position) (tokenize input) := by
  have h := tokenizeGo_spec input input.length ⟨0, 1, 1⟩ (by dsimp only; omega)
    (by dsimp only; omega)
  exact ⟨h.1, h.2.1, h.2.2.1⟩

end LuaLexer

namespace LuaParser

theorem syncLoop_spec :
    ∀ (n : Nat) (s : PState), s.tokens.length - s.position ≤ n →
      (syncLoop s).tokens = s.tokens ∧
      s.position ≤ (syncLoop s).position ∧
      (pAtEnd (syncLoop s) = true ∨
        (prev (syncLoop s)).map (·.type) = some .SEMICOLON ∨
        (∃ t, cur (syncLoop s) = some t ∧
          (t.type = .FUNCTION ∨ t.type = .LOCAL ∨ t.type = .FOR ∨
           t.type = .IF ∨ t.type = .WHILE ∨ t.type = .RETURN))) ∧
      (∀ p, s.position ≤ p → p < (syncLoop s).position →
        pAtEnd { tokens := s.tokens, position := p } = false ∧
        ¬ (prev { tokens := s.tokens, position := p }).map (·.type) =
            some LuaLexer.TokenType.SEMICOLON ∧
        ∀ t, cur { tokens := s.tokens, position := p } = some t →
          ¬(t.type = .FUNCTION ∨ t.type = .LOCAL ∨ t.type = .FOR ∨
            t.type = .IF ∨ t.type = .WHILE ∨ t.type = .RETURN)) := by
  intro n
  induction n with
  | zero =>
      intro s hn
      have hend : pAtEnd s = true := by
        simp only [pAtEnd, ge_iff_le, Bool.or_eq_true, decide_eq_true_eq]
        exact Or.inl (by omega)
      have heq : syncLoop s = s := by rw [syncLoop, dif_pos hend]
      rw [heq]
      exact ⟨rfl, le_refl _, Or.inl hend, fun p h1 h2 => absurd h2 (by omega)⟩
  | succ n ih =>
      intro s hn
      by_cases hend : pAtEnd s = true
      · have heq : syncLoop s = s := by rw [syncLoop, dif_pos hend]
        rw [heq]
        exact ⟨rfl, le_refl _, Or.inl hend, fun p h1 h2 => absurd h2 (by omega)⟩
      · have hendf : pAtEnd s = false := by simpa using hend
        by_cases hsemi : (prev s).map (·.type) = some LuaLexer.TokenType.SEMICOLON
        · have heq : syncLoop s = s := by
            rw [syncLoop, dif_neg hend, if_pos hsemi]
          rw [heq]
          exact ⟨rfl, le_refl _, Or.inr (Or.inl hsemi),
            fun p h1 h2 => absurd h2 (by omega)⟩
        · have hlt : s.position < s.tokens.length := by
            simp only [pAtEnd, Bool.or_eq_false_iff, decide_eq_false_iff_not,
              ge_iff_le, not_le] at hendf
            exact hendf.1
          have hadv : advance s = { tokens := s.tokens, position := s.position + 1 } := by
            simp [advance, hendf]
          have hnotstop : ∀ t, cur s = some t →
              ¬(t.type = .FUNCTION ∨ t.type = .LOCAL ∨ t.type = .FOR ∨
                t.type = .IF ∨ t.type = .WHILE ∨ t.type = .RETURN) → True := fun _ _ _ => True.intro
          cases hcur : cur s with
          | none =>
              have heq : syncLoop s = syncLoop (advance s) := by
                rw [syncLoop, dif_neg hend, if_neg hsemi, hcur]
              rw [heq, hadv]
              have iha := ih { tokens := s.tokens, position := s.position + 1 }
                (by dsimp only; omega)
              obtain ⟨ha1, ha2, ha3, ha4⟩ := iha
              dsimp only at ha1 ha2 ha4
              refine ⟨ha1, by omega, ha3, ?_⟩
              intro p hp1 hp2
              by_cases hps : p = s.position
              · subst hps
                refine ⟨hendf, hsemi, ?_⟩
                intro u hu
                have hceq : cur { tokens := s.tokens, position := s.position } =
                    none := hcur
                rw [hceq] at hu
                exact absurd hu (by simp)
              · exact ha4 p (by omega) hp2
          | some t =>
              by_cases hkw : t.type = .FUNCTION ∨ t.type = .LOCAL ∨ t.type = .FOR ∨
                  t.type = .IF ∨ t.type = .WHILE ∨ t.type = .RETURN
              · have heq : syncLoop s = s := by
                  rw [syncLoop, dif_neg hend, if_neg hsemi, hcur]
                  dsimp only
                  rw [if_pos hkw]
                rw [heq]
                exact ⟨rfl, le_refl _, Or.inr (Or.inr ⟨t, hcur, hkw⟩),
                  fun p h1 h2 => absurd h2 (by omega)⟩
              · have heq : syncLoop s = syncLoop (advance s) := by
                  rw [syncLoop, dif_neg hend, if_neg hsemi, hcur]
                  dsimp only
                  rw [if_neg hkw]
                rw [heq, hadv]
                have iha := ih { tokens := s.tokens, position := s.position + 1 }
                  (by dsimp only; omega)
                obtain ⟨ha1, ha2, ha3, ha4⟩ := iha
                dsimp only at ha1 ha2 ha4
                refine ⟨ha1, by omega, ha3, ?_⟩
                intro p hp1 hp2
                by_cases hps : p = s.position
                · subst hps
                  refine ⟨hendf, hsemi, ?_⟩
                  intro u hu
                  have hceq : cur { tokens := s.tokens, position := s.position } =
                      some t := hcur
                  have huv : u = t := Option.some.inj (hu.symm.trans hceq)
                  subst huv
                  exact hkw
                · exact ha4 p (by omega) hp2

/-- C9 (amended): when a statement fails to parse, the parser synchronizes —
it advances at least one token and stops at the first subsequent state that
is at the end of input, just past a semicolon, or looking at a
statement-starting keyword (`function`, `local`, `for`, `if`, `while`,
`return`); no `ParseError` abort exists, the caught error is discarded. -/
theorem C9_synchronize_recovery (s : PState) :
    (synchronize s).tokens = s.tokens ∧
    (advance s).position ≤ (synchronize s).position ∧
    (pAtEnd (synchronize s) = true ∨
      (prev (synchronize s)).map (·.type) = some .SEMICOLON ∨
      (∃ t, cur (synchronize s) = some t ∧
        (t.type = .FUNCTION ∨ t.type = .LOCAL ∨ t.type = .FOR ∨
         t.type = .IF ∨ t.type = .WHILE ∨ t.type = .RETURN))) ∧
    (∀ p, (advance s).position ≤ p → p < (synchronize s).position →
      pAtEnd { tokens := s.tokens, position := p } = false ∧
      ¬ (prev { tokens := s.tokens, position := p }).map (·.type) =
          some LuaLexer.TokenType.SEMICOLON ∧
      ∀ t, cur { tokens := s.tokens, position := p } = some t →
        ¬(t.type = .FUNCTION ∨ t.type = .LOCAL ∨ t.type = .FOR ∨
          t.type = .IF ∨ t.type = .WHILE ∨ t.type = .RETURN)) := by
  have hadv : (advance s).tokens = s.tokens := by
    unfold advance
    split <;> rfl
  have h := syncLoop_spec ((advance s).tokens.length - (advance s).position)
    (advance s) (le_refl _)
  obtain ⟨h1, h2, h3, h4⟩ := h
  refine ⟨by rw [show synchronize s = syncLoop (advance s) from rfl, h1, hadv], h2, h3, ?_⟩
  intro p hp1 hp2
  have := h4 p hp1 hp2
  rw [hadv] at this
  exact this

end LuaParser

namespace LuaParser

unseal LuaLexer.wsRun LuaLexer.identRun LuaLexer.tokenizeGo syncLoop skipNewlines in
/-- C9 counterexample: an unrecoverable EOF inside a construct does not
abort parsing with a structured `ParseError` — on `function f(` the
statement parser throws, `parseStatement` catches and discards the error,
synchronization runs off the end of input, and `parse` returns a successful
empty program. -/
theorem C9_counterexample :
    parse (LuaLexer.tokenize (js "function f(")) =
      .ok (.BlockStatement []) := by
  rfl

end LuaParser

namespace LuraphVM

/-- C1 (amended): the enhanced gate rejects an AST exactly when fewer than
two of its thirteen string patterns match the gate's own re-rendering of
the AST (`astToString`, not the original source text) and none of the three
structural indicators — an obfuscated function name, any binary expression,
a long identifier — holds.  In particular a plain binary expression already
makes the gate accept. -/
theorem C1_gate_reject_iff (ast : LuaParser.LNode) :
    isValidLuraphScript ast = false ↔
      (patternMatches (astToString ast) < 2 ∧
        gateHasObfuscatedStructure ast = false ∧
        gateHasComplexExpressions ast = false ∧
        gateHasLongIdentifiers ast = false) := by
  simp only [isValidLuraphScript, Bool.or_eq_false_iff, decide_eq_false_iff_not,
    ge_iff_le, not_le]
  constructor
  · rintro ⟨h1, h2, h3⟩
    exact ⟨h1, h2.1, h2.2, h3⟩
  · rintro ⟨h1, h2, h3, h4⟩
    exact ⟨h1, ⟨h2, h3⟩, h4⟩

set_option maxRecDepth 8192 in
unseal LuaLexer.wsRun LuaLexer.identRun LuaLexer.tokenizeGo LuaParser.skipNewlines
  LuaParser.syncLoop astToString gateHasObfuscatedStructure
  gateHasComplexExpressions gateHasLongIdentifiers hasNodeDeep in
/-- C1 counterexample: the plain Lua program `a + b` satisfies none of the
three claimed `looks_like_luraph` conditions — no marker text, zero of the
obfuscation patterns on the source, no `vm_handler`/`EncryptedString` pair —
yet the gate accepts its AST, because the top-level binary expression sets
the `hasComplexExpressions` indicator. -/
theorem C1_counterexample :
    LuaParser.parse (LuaLexer.tokenize (js "a + b")) =
      .ok (.BlockStatement [.BinaryExpression (.Identifier (js "a") false)
        (js "+") (.Identifier (js "b") false)]) ∧
    specHasMarkerText (js "a + b") = false ∧
    specPatternCount (js "a + b") < 2 ∧
    specHasVmHandlerAndEncrypted (.BlockStatement
      [.BinaryExpression (.Identifier (js "a") false) (js "+")
        (.Identifier (js "b") false)]) = false ∧
    isValidLuraphScript (.BlockStatement
      [.BinaryExpression (.Identifier (js "a") false) (js "+")
        (.Identifier (js "b") false)]) = true := by
  refine ⟨rfl, rfl, by decide, rfl, rfl⟩

end LuraphVM

namespace BytecodeReconstructor

open SymbolicExecutor

theorem executeBlock_incomplete (code : JSStr) :
    (executeBlock (parseHandlerCode code)).isComplete = false := by
  unfold parseHandlerCode
  repeat' split
  all_goals rfl

theorem reconstructFromPatterns_isSome (h : LuraphVMHandler) (code : JSStr) :
    (reconstructFromPatterns h code).isSome = true := by
  unfold reconstructFromPatterns
  repeat' split
  all_goals rfl

theorem reconstructHandler_isSome (h : LuraphVMHandler)
    (ctx : ReconstructionContext) :
    (reconstructHandler h ctx).isSome = true := by
  unfold reconstructHandler
  simp [executeBlock_incomplete, reconstructFromPatterns_isSome]

theorem foldStep_stats (ctx : ReconstructionContext) :
    ∀ (l : List (Int × LuraphVMHandler)) (acc : List VMInstruction × RecStats),
      (l.foldl (fun (acc : List VMInstruction × RecStats)
            (entry : Int × LuraphVMHandler) =>
          let (instructions, stats) := acc
          match reconstructHandler entry.2 ctx with
          | some instr =>
              (instructions ++ [instr],
               { stats with
                  instructionsReconstructed := stats.instructionsReconstructed + 1
                  handlersProcessed := stats.handlersProcessed + 1 })
          | none =>
              (instructions,
               { stats with handlersProcessed := stats.handlersProcessed + 1 }))
        acc).2.handlersProcessed = acc.2.handlersProcessed + l.length ∧
      (l.foldl (fun (acc : List VMInstruction × RecStats)
            (entry : Int × LuraphVMHandler) =>
          let (instructions, stats) := acc
          match reconstructHandler entry.2 ctx with
          | some instr =>
              (instructions ++ [instr],
               { stats with
                  instructionsReconstructed := stats.instructionsReconstructed + 1
                  handlersProcessed := stats.handlersProcessed + 1 })
          | none =>
              (instructions,
               { stats with handlersProcessed := stats.handlersProcessed + 1 }))
        acc).2.instructionsReconstructed =
          acc.2.instructionsReconstructed + l.length ∧
      (l.foldl (fun (acc : List VMInstruction × RecStats)
            (entry : Int × LuraphVMHandler) =>
          let (instructions, stats) := acc
          match reconstructHandler entry.2 ctx with
          | some instr =>
              (instructions ++ [instr],
               { stats with
                  instructionsReconstructed := stats.instructionsReconstructed + 1
                  handlersProcessed := stats.handlersProcessed + 1 })
          | none =>
              (instructions,
               { stats with handlersProcessed := stats.handlersProcessed + 1 }))
        acc).2.errors = acc.2.errors := by
  intro l
  induction l with
  | nil => intro acc; simp
  | cons e rest ih =>
      intro acc
      obtain ⟨is, st⟩ := acc
      rw [List.foldl_cons]
      have hsome := reconstructHandler_isSome e.2 ctx
      cases hre : reconstructHandler e.2 ctx with
      | none => rw [hre] at hsome; simp at hsome
      | some instr =>
          have ihnext := ih (is ++ [instr],
            { st with
               instructionsReconstructed := st.instructionsReconstructed + 1
               handlersProcessed := st.handlersProcessed + 1 })
          obtain ⟨i1, i2, i3⟩ := ihnext
          simp only [hre]
          dsimp only at i1 i2 i3 ⊢
          refine ⟨?_, ?_, ?_⟩
          · rw [i1]
            simp only [List.length_cons]
            omega
          · rw [i2]
            simp only [List.length_cons]
            omega
          · rw [i3]

end BytecodeReconstructor

namespace BytecodeReconstructor

/-- C2 (amended): a handler whose body matches none of the recognition
patterns still yields the placeholder `MOVE 0 0 0` (line = handler index),
but no warning is ever recorded in the run's statistics — `handlersProcessed`
and `instructionsReconstructed` both equal the handler count, and a
successful run has an empty `errors` list (the placeholder itself is later
removed by the optimizer, see the counterexample). -/
theorem C2_fallback_no_warning (ctx : ReconstructionContext)
    (h : LuraphVMHandler) (henc : h.encrypted = false)
    (hpat : parseHandlerCode h.handler = []) :
    reconstructHandler h ctx =
      some { opcode := LuaOpcode.MOVE, a := 0, b := 0, c := 0,
             line := some h.index } ∧
    (reconstructFromVM ctx).statistics.handlersProcessed =
      ctx.handlers.length ∧
    (reconstructFromVM ctx).statistics.instructionsReconstructed =
      ctx.handlers.length ∧
    ((reconstructFromVM ctx).success = true →
      (reconstructFromVM ctx).statistics.errors = []) := by
  have hf := foldStep_stats ctx (ctx.handlers.mergeSort fun a b => a.1 ≤ b.1)
    ([], { handlersProcessed := 0, instructionsReconstructed := 0,
           constantsDecrypted :=
             (decryptConstants ctx.constants ctx.encryptionInfo).length
           errors := [] })
  obtain ⟨hf1, hf2, hf3⟩ := hf
  dsimp only at hf1 hf2 hf3
  rw [List.length_mergeSort] at hf1 hf2
  refine ⟨?_, ?_, ?_, ?_⟩
  · have hcode : reconstructHandler h ctx = reconstructFromPatterns h h.handler := by
      unfold reconstructHandler
      simp [henc, executeBlock_incomplete]
    rw [hcode]
    revert hpat
    unfold parseHandlerCode reconstructFromPatterns
    repeat' split
    all_goals intro hx
    all_goals first | rfl | (exact absurd hx (by simp))
  · unfold reconstructFromVM
    dsimp only
    split
    · dsimp only
      omega
    · dsimp only
      omega
  · unfold reconstructFromVM
    dsimp only
    split
    · dsimp only
      omega
    · dsimp only
      omega
  · unfold reconstructFromVM
    dsimp only
    split
    · dsimp only
      intro _
      exact hf3
    · dsimp only
      intro hcontra
      exact absurd hcontra (by simp)

end BytecodeReconstructor

namespace BytecodeReconstructor

/-- C2 witness: a context with one unencrypted pattern-less handler (`xyz`):
the handler yields the placeholder, both statistics counters are 1, and the
successful run records no warning. -/
theorem C2_fallback_no_warning_witness :
    reconstructHandler
        { index := 0, opcode := 0, handler := js "xyz", encrypted := false }
        { handlers := [(0, { index := 0, opcode := 0, handler := js "xyz",
                             encrypted := false })], constants := [],
          encryptionInfo := { method := "auto", key := [], iv := none } } =
      some { opcode := LuaOpcode.MOVE, a := 0, b := 0, c := 0,
             line := some 0 } := by
  have h := C2_fallback_no_warning
    { handlers := [(0, { index := 0, opcode := 0, handler := js "xyz",
                         encrypted := false })], constants := [],
      encryptionInfo := { method := "auto", key := [], iv := none } }
    { index := 0, opcode := 0, handler := js "xyz", encrypted := false }
    rfl rfl
  exact h.1

unseal List.mergeSort in
/-- C2 counterexample: on the same one-handler context the claim predicts a
warning in the statistics and one final instruction; the code records no
warning (`errors = []`) and the optimizer deletes the placeholder
(`MOVE 0 0` is redundant), leaving zero instructions. -/
theorem C2_counterexample :
    reconstructFromVM
        { handlers := [(0, { index := 0, opcode := 0, handler := js "xyz",
                             encrypted := false })],
          constants := [],
          encryptionInfo := { method := "auto", key := [], iv := none } } =
      { success := true,
        proto := .mk [] [] [] [] (js "@deobfuscated.lua") 0 1 0 false 2,
        statistics := { handlersProcessed := 1, instructionsReconstructed := 1,
                        constantsDecrypted := 0, errors := [] } } := by
  rfl

end BytecodeReconstructor

namespace BytecodeReconstructor

theorem indexOf?_get {α : Type} [BEq α] [LawfulBEq α] :
    ∀ (l : List α) (k : α) (u : Nat), l.indexOf? k = some u → l.get? u = some k := by
  intro l
  induction l with
  | nil => intro k u h; simp [List.indexOf?] at h
  | cons a l ih =>
      intro k u h
      rw [List.indexOf?_cons] at h
      by_cases ha : (a == k) = true
      · rw [if_pos ha] at h
        obtain rfl : u = 0 := by simpa using h.symm
        simp [eq_of_beq ha]
      · rw [if_neg ha] at h
        simp only [Option.map_eq_some'] at h
        obtain ⟨v, hv, rfl⟩ := h
        have := ih k v hv
        simpa [List.get?_cons_succ] using this

theorem buildGo_spec :
    ∀ (keys uniq : List JSStr) (mapping : List Nat),
      (∃ ext, (keys.foldl
        (fun (acc : List JSStr × List Nat) key =>
          match acc.1.indexOf? key with
          | some j => (acc.1, acc.2 ++ [j])
          | none => (acc.1 ++ [key], acc.2 ++ [acc.1.length]))
        (uniq, mapping)).1 = uniq ++ ext) ∧
      (∃ tail, (keys.foldl
        (fun (acc : List JSStr × List Nat) key =>
          match acc.1.indexOf? key with
          | some j => (acc.1, acc.2 ++ [j])
          | none => (acc.1 ++ [key], acc.2 ++ [acc.1.length]))
        (uniq, mapping)).2 = mapping ++ tail ∧
        ∀ i j, tail.get? i = some j →
          (keys.foldl
            (fun (acc : List JSStr × List Nat) key =>
              match acc.1.indexOf? key with
              | some j => (acc.1, acc.2 ++ [j])
              | none => (acc.1 ++ [key], acc.2 ++ [acc.1.length]))
            (uniq, mapping)).1.get? j = keys.get? i) := by
  intro keys
  induction keys with
  | nil =>
      intro uniq mapping
      exact ⟨⟨[], by simp⟩, ⟨[], by simp, fun i j h => by simp at h⟩⟩
  | cons k rest ih =>
      intro uniq mapping
      rw [List.foldl_cons]
      cases hidx : uniq.indexOf? k with
      | some u =>
          simp only [hidx]
          obtain ⟨⟨ext, hext⟩, ⟨tail, htail, hkey⟩⟩ := ih uniq (mapping ++ [u])
          have hu : uniq.get? u = some k := indexOf?_get uniq k u hidx
          have hulen : u < uniq.length := by
            by_contra hc
            push_neg at hc
            rw [List.get?_eq_none.mpr hc] at hu
            simp at hu
          refine ⟨⟨ext, hext⟩, ⟨u :: tail, ?_, ?_⟩⟩
          · rw [htail]
            simp
          · intro i j hj
            cases i with
            | zero =>
                simp only [List.get?_cons_zero] at hj
                obtain rfl : j = u := by simpa using hj.symm
                rw [hext]
                rw [List.get?_append hulen]
                simpa using hu
            | succ i =>
                simp only [List.get?_cons_succ] at hj
                simpa using hkey i j hj
      | none =>
          simp only [hidx]
          obtain ⟨⟨ext, hext⟩, ⟨tail, htail, hkey⟩⟩ :=
            ih (uniq ++ [k]) (mapping ++ [uniq.length])
          refine ⟨⟨[k] ++ ext, by rw [hext]; simp⟩, ⟨uniq.length :: tail, ?_, ?_⟩⟩
          · rw [htail]
            simp
          · intro i j hj
            cases i with
            | zero =>
                simp only [List.get?_cons_zero] at hj
                obtain rfl : j = uniq.length := by simpa using hj.symm
                rw [hext]
                rw [List.get?_append (by simp)]
                simp
            | succ i =>
                simp only [List.get?_cons_succ] at hj
                simpa using hkey i j hj

end BytecodeReconstructor

namespace BytecodeReconstructor

/-- C6 (amended): the dedup mapping itself is key-preserving — if the old
constant index `i` is mapped to the new index `j`, the deduplicated pool
holds the same `type:JSON` key at `j` — but `LOADK.bx` only follows the
mapping when the mapped index is non-zero (`mapping.get(bx) || bx`): a hit
of `0` keeps the stale `bx`, which can then exceed the shrunken pool. -/
theorem C6_dedup_mapping (keys : List JSStr) (mapping : List Nat) (bx : Int) :
    (∀ i j : Nat,
      (buildMaps keys).2.get? i = some j →
      (buildMaps keys).1.get? j = keys.get? i) ∧
    (∀ j : Nat, 0 ≤ bx →
      mapping.get? bx.toNat = some j →
      newBx mapping bx = if j = 0 then bx else (j : Int)) := by
  constructor
  · intro i j hij
    have h := buildGo_spec keys [] []
    obtain ⟨⟨ext, hext⟩, ⟨tail, htail, hkey⟩⟩ := h
    unfold buildMaps at hij ⊢
    rw [htail] at hij
    simp only [List.nil_append] at hij
    exact hkey i j hij
  · intro j hbx hget
    unfold newBx
    rw [if_pos hbx, hget]
    by_cases hj : j = 0
    · subst hj
      simp
    · simp [hj]

/-- C6 counterexample: a proto with two equal `number 1` constants and a
`LOADK` with `bx = 1`: the pass collapses the pool to one entry, but the
mapping hit for `bx = 1` is the new index `0`, which is falsy, so `bx`
stays `1` — now out of range for the one-element constant pool. -/
theorem C6_counterexample :
    optimizeConstantLoading
        (.mk [{ opcode := LuaOpcode.LOADK, a := 0, b := 0, c := 0, bx := some 1 }]
          [{ value := .numInt 1, index := 0 }, { value := .numInt 1, index := 1 }]
          [] [] (js "@deobfuscated.lua") 0 0 0 false 2) =
      .ok (.mk [{ opcode := LuaOpcode.LOADK, a := 0, b := 0, c := 0, bx := some 1 }]
        [{ value := .numInt 1, index := 0 }]
        [] [] (js "@deobfuscated.lua") 0 0 0 false 2) ∧
    ¬ (1 : Nat) < ([{ value := VMConstVal.numInt 1, index := 0 }] : List VMConstant).length := by
  constructor
  · rfl
  · decide

end BytecodeReconstructor
